import Mathlib

/-!
Verification of the `thought` static publishing tool.

This file shallowly embeds the parts of the repository that the verified
properties talk about:

* the article data model and `Article::sha256` (src/src/article.rs,
  src/src/category.rs, src/src/metadata.rs), including a byte-accurate
  SHA-256 and the canonical JSON serialization produced by `serde_json`
  (default feature set: object keys ordered by the `BTreeMap` order,
  i.e. lexicographically);
* output-path computation (`ArticlePreview::output_path` / `output_file`)
  and the path at which `Engine::generate` writes rendered articles
  (src/src/engine.rs);
* the article traversal stream (src/src/workspace.rs `walk_articles`)
  and the preview collections fed to index generation
  (src/src/engine.rs, src/src/serve.rs `collect_previews`);
* the hook pipeline (src/src/plugin.rs `apply_pre_render`,
  `apply_post_render`, `ThemeRuntime::generate_page`);
* the render cache lookup (src/src/cache.rs `RenderCache::hit`);
* the search subsystem (src/src/search.rs): `ensure_index`,
  `export_records`, `encode_payload_as_wasm`;
* the plugin resolver (src/src/plugin/resolver.rs `resolve_plugin`,
  `fetch_artifact`);
* the preview server path handling (src/src/serve.rs
  `sanitize_relative_path`, `serve_path`).

Machine integers are modelled as `Nat`/`Int` with explicit reduction
modulo `2 ^ 32` where the Rust code works with `u32`/`i32`; fallible
operations are modelled with `Option`/`Except`; filesystem and network
effects are modelled by explicit state records and effect lists.
-/

set_option maxRecDepth 100000

namespace Thought

/-! ## Small string and byte utilities -/

/-- Lowercase hexadecimal digit, as produced by Rust's `format!("{x}")`
style hex formatting and by `serde_json`'s control-character escapes. -/
def hexDigit (n : Nat) : Char :=
  "0123456789abcdef".data.getD n '0' 

/-- Reduce modulo `2 ^ 32`: the wrap-around of 32-bit machine arithmetic. -/
def w32 (n : Nat) : Nat := n % 4294967296

/-- UTF-8 encoding of one Unicode scalar value (the byte sequence Rust
strings store for this character). -/
def utf8Char (n : Nat) : List Nat :=
  if n < 128 then [n]
  else if n < 2048 then [192 + n / 64, 128 + n % 64]
  else if n < 65536 then [224 + n / 4096, 128 + n / 64 % 64, 128 + n % 64]
  else [240 + n / 262144, 128 + n / 4096 % 64, 128 + n / 64 % 64, 128 + n % 64]

/-- The UTF-8 bytes of a string: exactly the bytes `str::as_bytes` exposes
on the Rust side. -/
def utf8Bytes (s : String) : List Nat :=
  s.data.flatMap (fun c => utf8Char c.toNat)

/-- JSON escaping of one character, following `serde_json`'s writer:
quote and backslash get two-character escapes, the classic control
characters get their short forms, all other control characters become
lowercase `\u00xx`, and everything else is emitted verbatim. -/
def escapeChar (c : Char) : List Char :=
  if c = '"' then ['\\', '"']
  else if c = '\\' then ['\\', '\\']
  else if c.toNat = 8 then ['\\', 'b']
  else if c.toNat = 9 then ['\\', 't']
  else if c.toNat = 10 then ['\\', 'n']
  else if c.toNat = 12 then ['\\', 'f']
  else if c.toNat = 13 then ['\\', 'r']
  else if c.toNat < 32 then
    ['\\', 'u', '0', '0', hexDigit (c.toNat / 16), hexDigit (c.toNat % 16)]
  else [c]

/-- A JSON string literal for `s` (quotes included). -/
def jsonString (s : String) : String :=
  "\"" ++ String.mk (s.data.flatMap escapeChar) ++ "\""

/-- A JSON array of string literals. -/
def jsonStringArray (xs : List String) : String :=
  "[" ++ String.intercalate "," (xs.map jsonString) ++ "]"

/-- `Option<String>` serialized the way `serde_json` serializes it:
`null` for `None`, a string literal otherwise. -/
def jsonOptString : Option String → String
  | none => "null"
  | some s => jsonString s

/-! ## SHA-256 (the `sha2` crate's algorithm, byte for byte) -/

/-- Right rotation of a 32-bit word. -/
def rotr32 (x n : Nat) : Nat := (x >>> n) ||| w32 (x <<< (32 - n))

def ch32 (e f g : Nat) : Nat := (e &&& f) ^^^ ((e ^^^ 4294967295) &&& g)

def maj32 (a b c : Nat) : Nat := (a &&& b) ^^^ (a &&& c) ^^^ (b &&& c)

def bigSigma0 (x : Nat) : Nat := rotr32 x 2 ^^^ rotr32 x 13 ^^^ rotr32 x 22

def bigSigma1 (x : Nat) : Nat := rotr32 x 6 ^^^ rotr32 x 11 ^^^ rotr32 x 25

def smallSigma0 (x : Nat) : Nat := rotr32 x 7 ^^^ rotr32 x 18 ^^^ (x >>> 3)

def smallSigma1 (x : Nat) : Nat := rotr32 x 17 ^^^ rotr32 x 19 ^^^ (x >>> 10)

/-- The SHA-256 round constants. -/
def sha256K : List Nat :=
  [1116352408, 1899447441, 3049323471, 3921009573, 961987163, 1508970993,
   2453635748, 2870763221, 3624381080, 310598401, 607225278, 1426881987,
   1925078388, 2162078206, 2614888103, 3248222580, 3835390401, 4022224774,
   264347078, 604807628, 770255983, 1249150122, 1555081692, 1996064986,
   2554220882, 2821834349, 2952996808, 3210313671, 3336571891, 3584528711,
   113926993, 338241895, 666307205, 773529912, 1294757372, 1396182291,
   1695183700, 1986661051, 2177026350, 2456956037, 2730485921, 2820302411,
   3259730800, 3345764771, 3516065817, 3600352804, 4094571909, 275423344,
   430227734, 506948616, 659060556, 883997877, 958139571, 1322822218,
   1537002063, 1747873779, 1955562222, 2024104815, 2227730452, 2361852424,
   2428436474, 2756734187, 3204031479, 3329325298]

/-- The eight working registers of the compression function. -/
structure Sha256Regs where
  a : Nat
  b : Nat
  c : Nat
  d : Nat
  e : Nat
  f : Nat
  g : Nat
  h : Nat
deriving Repr, DecidableEq

/-- The SHA-256 initialization vector. -/
def sha256Init : Sha256Regs :=
  ⟨1779033703, 3144134277, 1013904242, 2773480762, 1359893119, 2600822924,
   528734635, 1541459225⟩

/-- Group a byte list into big-endian 32-bit words. -/
def bytesToWords : List Nat → List Nat
  | a :: b :: c :: d :: rest =>
    (((a * 256 + b) * 256 + c) * 256 + d) :: bytesToWords rest
  | _ => []

/-- Split a word list into blocks of 16 words (the padded message is
always a whole number of blocks). -/
def wordsToBlocks : List Nat → List (List Nat)
  | w0 :: w1 :: w2 :: w3 :: w4 :: w5 :: w6 :: w7 ::
    w8 :: w9 :: w10 :: w11 :: w12 :: w13 :: w14 :: w15 :: rest =>
    [w0, w1, w2, w3, w4, w5, w6, w7, w8, w9, w10, w11, w12, w13, w14, w15]
      :: wordsToBlocks rest
  | _ => []

/-- Big-endian 8-byte encoding of the message bit length. -/
def be64 (n : Nat) : List Nat :=
  [n >>> 56 % 256, n >>> 48 % 256, n >>> 40 % 256, n >>> 32 % 256,
   n >>> 24 % 256, n >>> 16 % 256, n >>> 8 % 256, n % 256]

/-- SHA-256 message padding: a `0x80` byte, zeros up to 56 mod 64, and
the 64-bit big-endian bit length. -/
def sha256Pad (msg : List Nat) : List Nat :=
  msg ++ [128] ++ List.replicate ((119 - msg.length % 64) % 64) 0
      ++ be64 (msg.length * 8)

/-- Extend a 16-word block to the 64-word message schedule. -/
def sha256Schedule (block : List Nat) : List Nat :=
  let step := fun (w : Array Nat) (_ : Nat) =>
    w.push (w32 (smallSigma1 w[w.size - 2]! + w[w.size - 7]!
                 + smallSigma0 w[w.size - 15]! + w[w.size - 16]!))
  ((List.range 48).foldl step block.toArray).toList

/-- One round of the SHA-256 compression function. -/
def sha256Round (r : Sha256Regs) (kw : Nat × Nat) : Sha256Regs :=
  let t1 := w32 (r.h + bigSigma1 r.e + ch32 r.e r.f r.g + kw.1 + kw.2)
  let t2 := w32 (bigSigma0 r.a + maj32 r.a r.b r.c)
  ⟨w32 (t1 + t2), r.a, r.b, r.c, w32 (r.d + t1), r.e, r.f, r.g⟩

/-- Process one 512-bit block. -/
def sha256Block (st : Sha256Regs) (block : List Nat) : Sha256Regs :=
  let r := (sha256K.zip (sha256Schedule block)).foldl sha256Round st
  ⟨w32 (st.a + r.a), w32 (st.b + r.b), w32 (st.c + r.c), w32 (st.d + r.d),
   w32 (st.e + r.e), w32 (st.f + r.f), w32 (st.g + r.g), w32 (st.h + r.h)⟩

/-- SHA-256 of a byte sequence, as the eight final state words. -/
def sha256Words (msg : List Nat) : Sha256Regs :=
  (wordsToBlocks (bytesToWords (sha256Pad msg))).foldl sha256Block sha256Init

/-- Lowercase hexadecimal rendering of one 32-bit word (8 digits). -/
def hex32 (n : Nat) : String :=
  String.mk [hexDigit (n >>> 28 % 16), hexDigit (n >>> 24 % 16),
             hexDigit (n >>> 20 % 16), hexDigit (n >>> 16 % 16),
             hexDigit (n >>> 12 % 16), hexDigit (n >>> 8 % 16),
             hexDigit (n >>> 4 % 16), hexDigit (n % 16)]

/-- The lowercase hex digest of SHA-256, as `format!("{result:x}")`
prints it in `Article::sha256`. -/
def sha256Hex (msg : List Nat) : String :=
  let r := sha256Words msg
  hex32 r.a ++ hex32 r.b ++ hex32 r.c ++ hex32 r.d
    ++ hex32 r.e ++ hex32 r.f ++ hex32 r.g ++ hex32 r.h

/-! ## Article data model (src/src/metadata.rs, category.rs, article.rs) -/

/-- `ArticleMetadata` (src/src/metadata.rs): `created` is an RFC 3339
timestamp, modelled by its unix seconds plus the sub-second nanoseconds;
`description` is the optional override. -/
structure ArticleMetadata where
  created : Int
  createdNanos : Nat
  tags : List String
  author : String
  description : Option String
deriving Repr, DecidableEq

/-- `CategoryMetadata` (src/src/metadata.rs). -/
structure CategoryMetadata where
  created : Int
  name : String
  description : String
deriving Repr, DecidableEq

/-- `Category` (src/src/category.rs): it carries a clone of the
workspace handle; the model keeps the workspace root path, which is all
`Category::dir` reads from it. -/
structure Category where
  workspaceRoot : String
  segments : List String
  metadata : CategoryMetadata
deriving Repr, DecidableEq

/-- `Workspace::articles_dir` (src/src/workspace.rs): `root.join("articles")`. -/
def Workspace.articles_dir (root : String) : String := root ++ "/articles"

/-- `Category::dir` (src/src/category.rs lines 120-125): fold the
segments onto the workspace's articles directory. -/
def Category.dir (c : Category) : String :=
  c.segments.foldl (fun acc comp => acc ++ "/" ++ comp)
    (Workspace.articles_dir c.workspaceRoot)

/-- `ArticleTranslation` (src/src/article.rs). -/
structure ArticleTranslation where
  locale : String
  title : String
deriving Repr, DecidableEq

/-- `ArticlePreview` (src/src/article.rs). -/
structure ArticlePreview where
  title : String
  slug : String
  category : Category
  metadata : ArticleMetadata
  description : String
  locale : String
  defaultLocale : String
  translations : List ArticleTranslation
deriving Repr, DecidableEq

/-- `Article` (src/src/article.rs): preview plus raw markdown content. -/
structure Article where
  content : String
  preview : ArticlePreview
deriving Repr, DecidableEq

/-- `ArticlePreview::is_default_locale`. -/
def ArticlePreview.is_default_locale (p : ArticlePreview) : Bool :=
  p.locale == p.defaultLocale

/-- `ArticlePreview::output_path` (src/src/article.rs lines 98-107):
category segments plus the slug, with `.<locale>` appended to the slug
for a non-default locale, joined by `/`. -/
def ArticlePreview.output_path (p : ArticlePreview) : String :=
  let slug := if p.is_default_locale then p.slug
              else p.slug ++ "." ++ p.locale
  String.intercalate "/" (p.category.segments ++ [slug])

/-- `ArticlePreview::output_file` (src/src/article.rs lines 110-112). -/
def ArticlePreview.output_file (p : ArticlePreview) : String :=
  p.output_path ++ ".html"

def Article.title (a : Article) : String := a.preview.title

def Article.slug (a : Article) : String := a.preview.slug

def Article.category (a : Article) : Category := a.preview.category

def Article.metadata (a : Article) : ArticleMetadata := a.preview.metadata

def Article.description (a : Article) : String := a.preview.description

def Article.locale (a : Article) : String := a.preview.locale

def Article.default_locale (a : Article) : String := a.preview.defaultLocale

def Article.is_default_locale (a : Article) : Bool :=
  a.preview.is_default_locale

def Article.translations (a : Article) : List ArticleTranslation :=
  a.preview.translations

def Article.output_path (a : Article) : String := a.preview.output_path

def Article.output_file (a : Article) : String := a.preview.output_file

/-- One translation entry of the canonical JSON in `Article::sha256`. -/
def translationJson (t : ArticleTranslation) : String :=
  "\x7b\"locale\":" ++ jsonString t.locale
    ++ ",\"title\":" ++ jsonString t.title ++ "\x7d"

/-- The canonical JSON string hashed by `Article::sha256`
(src/src/article.rs lines 318-349). `serde_json` with its default
features keeps object keys in `BTreeMap` (lexicographic) order, and the
`category` key holds `self.category().dir()` - the absolute category
directory, workspace root included. `created` is
`created().unix_timestamp()`, an `i64` printed in decimal. -/
def articleJson (a : Article) : String :=
  "\x7b\"category\":" ++ jsonString a.category.dir
    ++ ",\"content\":" ++ jsonString a.content
    ++ ",\"description\":" ++ jsonString a.description
    ++ ",\"locale\":" ++ jsonString a.locale
    ++ ",\"metadata\":\x7b\"author\":" ++ jsonString a.metadata.author
    ++ ",\"created\":" ++ toString a.metadata.created
    ++ ",\"description\":" ++ jsonOptString a.metadata.description
    ++ ",\"tags\":" ++ jsonStringArray a.metadata.tags ++ "\x7d"
    ++ ",\"slug\":" ++ jsonString a.slug
    ++ ",\"title\":" ++ jsonString a.title
    ++ ",\"translations\":["
    ++ String.intercalate "," (a.translations.map translationJson)
    ++ "]\x7d"

/-- `Article::sha256` (src/src/article.rs lines 318-349): the lowercase
hex SHA-256 digest of the canonical JSON's UTF-8 bytes. -/
def Article.sha256 (a : Article) : String :=
  sha256Hex (utf8Bytes (articleJson a))

/-! ## Engine output paths and preview collections (src/src/engine.rs) -/

/-- The path, relative to the output directory, at which
`Engine::generate` writes a rendered article (src/src/engine.rs line
96): `output.join(format!("{}.html", article.slug()))` - the slug alone,
no category directories and no locale suffix. -/
def Engine.articleOutputRel (a : Article) : String := a.slug ++ ".html"

/-- One article directory as the traversal sees it
(src/src/workspace.rs `walk_articles`): the primary article opened
without an explicit locale (hence in its default locale), followed by
the variants opened for each translation locale different from the
primary's. -/
structure ArticleDir where
  primary : Article
  variants : List Article
deriving Repr

/-- What `walk_articles` guarantees about the emitted articles: the
primary is in its default locale and every variant was opened for a
locale different from the default. -/
def ArticleDir.WF (d : ArticleDir) : Bool :=
  d.primary.is_default_locale && d.variants.all (fun v => !v.is_default_locale)

/-- The article stream `Workspace::articles` delivers: for every article
directory, the primary followed by its non-default locale variants. -/
def Workspace.articles (dirs : List ArticleDir) : List Article :=
  dirs.flatMap (fun d => d.primary :: d.variants)

/-- The preview sequence `Engine::generate` accumulates and hands to the
index render task (src/src/engine.rs lines 53-85): it pushes the preview
of every article the stream yields, with no locale filter. -/
def Engine.generatePreviews (dirs : List ArticleDir) : List ArticlePreview :=
  (Workspace.articles dirs).map Article.preview

/-- `ServeState::collect_previews` (src/src/serve.rs lines 316-325):
previews of the streamed articles that are in their default locale. -/
def ServeState.collect_previews (dirs : List ArticleDir) : List ArticlePreview :=
  ((Workspace.articles dirs).filter Article.is_default_locale).map
    Article.preview

/-! ## Hook pipeline (src/src/plugin.rs) -/

/-- A loaded hook runtime: both lifecycle exports, as fallible guest
calls (`PluginRuntime::on_pre_render`, `on_post_render`). -/
structure Hook where
  onPreRender : Article → Except String Article
  onPostRender : Article → String → Except String String

/-- A loaded theme runtime (`ThemeRuntime`): both exports as fallible
guest calls. -/
structure Theme where
  generatePage : Article → Except String String
  generateIndex : List ArticlePreview → Except String String

/-- `PluginManager::apply_pre_render` (src/src/plugin.rs lines 133-141):
thread the article through each hook's `on_pre_render` in declaration
order, stopping at the first error. -/
def PluginManager.apply_pre_render : List Hook → Article → Except String Article
  | [], article => .ok article
  | hook :: rest, article =>
    match hook.onPreRender article with
    | .error e => .error e
    | .ok next => PluginManager.apply_pre_render rest next

/-- `PluginManager::apply_post_render` (src/src/plugin.rs lines
144-151): thread the HTML through each hook's `on_post_render` in
declaration order, stopping at the first error. -/
def PluginManager.apply_post_render : List Hook → Article → String → Except String String
  | [], _, html => .ok html
  | hook :: rest, article, html =>
    match hook.onPostRender article html with
    | .error e => .error e
    | .ok next => PluginManager.apply_post_render rest article next

/-- Modelled from the spec: the per-article render pipeline composition
(`PluginManager::render_article`) is called from src/src/engine.rs and
src/src/serve.rs but its body is not under src/; section 4.5 of the
specification gives it as: fold `on_pre_render` over the hooks in
declaration order, render the resulting article with the theme's
`generate_page`, then fold `on_post_render` (receiving that same
article) over the hooks in declaration order. -/
def PluginManager.render_article (hooks : List Hook) (theme : Theme)
    (article : Article) : Except String String :=
  match PluginManager.apply_pre_render hooks article with
  | .error e => .error e
  | .ok pre =>
    match theme.generatePage pre with
    | .error e => .error e
    | .ok html => PluginManager.apply_post_render hooks pre html

/-- A hook whose guest calls always succeed, given by plain functions. -/
structure PureHook where
  pre : Article → Article
  post : Article → String → String

/-- View a pure hook as a runtime hook. -/
def PureHook.toHook (h : PureHook) : Hook :=
  ⟨fun a => .ok (h.pre a), fun a s => .ok (h.post a s)⟩

/-- A theme whose page generator always succeeds. -/
def Theme.ofPure (gen : Article → String)
    (genIndex : List ArticlePreview → String) : Theme :=
  ⟨fun a => .ok (gen a), fun ps => .ok (genIndex ps)⟩

/-! ## Search index fingerprint check (src/src/search.rs) -/

/-- The observable outcome of `Searcher::ensure_index`: whether
`Searcher::index` ran, the returned boolean, and the fingerprint left in
the companion `search_meta` store. -/
structure EnsureOutcome where
  rebuilt : Bool
  returned : Bool
  stored : Option String
deriving Repr, DecidableEq

/-- `Searcher::ensure_index` (src/src/search.rs lines 261-275), with the
companion store's current fingerprint passed in (`read_fingerprint`) and
the final store contents returned (`write_fingerprint` commits the new
value after a rebuild). -/
def Searcher.ensure_index (fingerprint : Option String)
    (stored : Option String) : EnsureOutcome :=
  match fingerprint with
  | some expected =>
    if stored = some expected then ⟨false, false, stored⟩
    else ⟨true, true, some expected⟩
  | none => ⟨true, true, stored⟩

/-! ## Render cache (src/src/cache.rs) -/

/-- `CachedArticle` (src/src/cache.rs lines 13-22). -/
structure CachedArticle where
  sha256 : String
  title : String
  description : String
  metadata : ArticleMetadata
  html : String
  themeFingerprint : String
deriving Repr, DecidableEq

/-- The state `RenderCache::hit` observes on its read path: whether
`begin_read` and `open_table` succeed, and for each key either no entry,
an entry whose bytes fail `bincode::deserialize`, or the deserialized
entry. -/
structure CacheReadState where
  beginReadOk : Bool
  openTableOk : Bool
  table : String → Option (Option CachedArticle)

/-- `RenderCache::hit` (src/src/cache.rs lines 55-84): every failure on
the read path - transaction, table, absent key, deserialization - is a
miss; a present entry is a hit only when its sha256, title, description,
metadata and theme fingerprint all equal the live article's values and
the current theme fingerprint. The key is `article.output_path()`. -/
def RenderCache.hit (st : CacheReadState) (article : Article)
    (theme_fingerprint : String) : Option String :=
  if st.beginReadOk then
    if st.openTableOk then
      match st.table article.output_path with
      | none => none
      | some none => none
      | some (some cached) =>
        if cached.sha256 = article.sha256 ∧ cached.title = article.title
            ∧ cached.description = article.description
            ∧ cached.metadata = article.metadata
            ∧ cached.themeFingerprint = theme_fingerprint then
          some cached.html
        else none
    else none
  else none

/-! ## Plugin resolver (src/src/plugin/resolver.rs) -/

/-- `PluginLocator` as `resolve_plugin` consumes it: the resolver
pattern-matches `CratesIo, Git (with url, rev, branch), Local, Url`
(src/src/plugin/resolver.rs lines 117-159). -/
inductive PluginLocator where
  | cratesIo (version : String)
  | git (url : String) (rev : Option String) (branch : Option String)
  | localDir (path : String)
  | artifactUrl (url : String)
deriving Repr, DecidableEq

/-- The locator stamp `serde_json::to_vec(locator)` recorded in
`.locator.json`: an untagged enum serializes as its variant's struct,
fields in declaration order, `None` as `null`. -/
def PluginLocator.stamp : PluginLocator → String
  | .cratesIo version => "\x7b\"version\":" ++ jsonString version ++ "\x7d"
  | .git url rev branch =>
    "\x7b\"url\":" ++ jsonString url ++ ",\"rev\":" ++ jsonOptString rev
      ++ ",\"branch\":" ++ jsonOptString branch ++ "\x7d"
  | .localDir path => "\x7b\"path\":" ++ jsonString path ++ "\x7d"
  | .artifactUrl url => "\x7b\"url\":" ++ jsonString url ++ "\x7d"

/-- The externally visible actions `resolve_plugin` can perform while
materializing a plugin directory. -/
inductive ResolveEffect where
  | createPluginRoot
  | removePluginDir
  | cratesDownload (name version : String)
  | githubReleaseFetch (author repo tag : String)
  | gitClone (url : String) (rev : Option String)
  | copyLocalDir (path : String)
  | httpFetch (url : String) (insecure : Bool)
  | localFileRead (url : String)
  | warnInsecureHttp (url : String)
  | writeMainWasm
  | unpackArchive
  | writeDescriptor (stamp : String)
deriving Repr, DecidableEq

/-- The error kinds of `ResolvePluginError` the modelled paths surface. -/
inductive ResolveError where
  | invalidLocator (msg : String)
  | ioError
  | networkError
deriving Repr, DecidableEq

/-- What the resolver finds in `<cache>/plugins/<name>/` before running:
whether the directory exists and the readable contents of its
`.locator.json`, if any. -/
structure PluginCacheState where
  dirExists : Bool
  descriptor : Option String

/-- Oracles for the network and filesystem outcomes of the
materialization helpers (their internals are abstracted to effects). -/
structure ResolveEnv where
  githubRelease : String → String → String → Option (Except ResolveError Unit)
  cloneOk : Bool
  cratesOk : Bool
  fetchOk : Bool
  localReadOk : Bool
  copyOk : Bool

/-- ASCII lowercasing of one character (`to_ascii_lowercase`). -/
def asciiLowerChar (c : Char) : Char :=
  match c with
  | 'A' => 'a' | 'B' => 'b' | 'C' => 'c' | 'D' => 'd' | 'E' => 'e'
  | 'F' => 'f' | 'G' => 'g' | 'H' => 'h' | 'I' => 'i' | 'J' => 'j'
  | 'K' => 'k' | 'L' => 'l' | 'M' => 'm' | 'N' => 'n' | 'O' => 'o'
  | 'P' => 'p' | 'Q' => 'q' | 'R' => 'r' | 'S' => 's' | 'T' => 't'
  | 'U' => 'u' | 'V' => 'v' | 'W' => 'w' | 'X' => 'x' | 'Y' => 'y'
  | 'Z' => 'z' | other => other

/-- `str::to_ascii_lowercase`. -/
def lowerAscii (s : String) : String := String.mk (s.data.map asciiLowerChar)

/-- Whether `s` ends with the given suffix. -/
def strEndsWith (s suffix : String) : Bool := suffix.data.isSuffixOf s.data

/-- Split a character list at the first `://`, returning the parts
before and after it. -/
def sepSplit : List Char → Option (List Char × List Char)
  | [] => none
  | ':' :: '/' :: '/' :: rest => some ([], rest)
  | c :: rest => (sepSplit rest).map (fun p => (c :: p.1, p.2))

/-- Split a character list on `/`. -/
def splitSlash : List Char → List (List Char)
  | [] => [[]]
  | '/' :: rest => [] :: splitSlash rest
  | c :: rest =>
    match splitSlash rest with
    | h :: t => (c :: h) :: t
    | [] => [[c]]

/-- The scheme of a URL as `Url::parse` reports it (lowercased); `none`
models a parse failure. -/
def urlScheme (url : String) : Option String :=
  match sepSplit url.data with
  | none => none
  | some ([], _) => none
  | some (scheme, _) => some (String.mk (scheme.map asciiLowerChar))

/-- `parse_github` (src/src/plugin/resolver.rs lines 441-453): the
author and repository (with a trailing `.git` stripped) when the host is
`github.com`. -/
def parse_github (url : String) : Option (String × String) :=
  match sepSplit url.data with
  | none => none
  | some (_, rest) =>
    match (splitSlash rest).map String.mk with
    | host :: author :: repo :: _ =>
      if host = "github.com" ∧ ¬author.isEmpty ∧ ¬repo.isEmpty then
        some (author,
          if strEndsWith repo ".git" then
            String.mk (repo.data.take (repo.data.length - 4))
          else repo)
      else none
    | _ => none

/-- The suffix dispatch at the end of `fetch_artifact`
(src/src/plugin/resolver.rs lines 336-355): `.wasm` is written as
`main.wasm`, `.tar.gz`/`.tgz`/`.zip` are unpacked, anything else is an
invalid locator. -/
def artifactDispatch (url : String) : List ResolveEffect × Except ResolveError Unit :=
  let lower := lowerAscii url
  if strEndsWith lower ".wasm" then ([.writeMainWasm], .ok ())
  else if strEndsWith lower ".tar.gz" ∨ strEndsWith lower ".tgz" then
    ([.unpackArchive], .ok ())
  else if strEndsWith lower ".zip" then ([.unpackArchive], .ok ())
  else ([], .error (.invalidLocator ("Unsupported artifact url: " ++ url)))

/-- `fetch_artifact` (src/src/plugin/resolver.rs lines 305-355):
`file://` URLs are read locally; `http`/`https` URLs are downloaded -
with only a warning, not a rejection, when the scheme is plain `http`;
any other scheme is an invalid locator. -/
def fetch_artifact (url : String) (env : ResolveEnv) :
    List ResolveEffect × Except ResolveError Unit :=
  match urlScheme url with
  | none => ([], .error (.invalidLocator "relative URL without a base"))
  | some scheme =>
    if scheme = "file" then
      if env.localReadOk then
        let (effs, res) := artifactDispatch url
        (.localFileRead url :: effs, res)
      else ([.localFileRead url], .error .ioError)
    else if scheme = "http" ∨ scheme = "https" then
      let warn : List ResolveEffect :=
        if scheme = "http" then [.warnInsecureHttp url] else []
      if env.fetchOk then
        let (effs, res) := artifactDispatch url
        (warn ++ [.httpFetch url (scheme = "http")] ++ effs, res)
      else (warn ++ [.httpFetch url (scheme = "http")], .error .networkError)
    else ([], .error (.invalidLocator ("Unsupported URL scheme `" ++ scheme ++ "`")))

/-- The materialization step of the Git arm after the rev/branch
validation (src/src/plugin/resolver.rs lines 127-151): on a
`github.com` URL first try a release download, falling back to a clone;
otherwise clone directly. -/
def gitMaterialize (url : String) (rev branch : Option String)
    (env : ResolveEnv) : List ResolveEffect × Except ResolveError Unit :=
  let checkout := rev.orElse (fun _ => branch)
  let clone : List ResolveEffect × Except ResolveError Unit :=
    ([.gitClone url checkout],
     if env.cloneOk then .ok () else .error .ioError)
  match parse_github url with
  | some (author, repo) =>
    let tag := checkout.getD "latest"
    match env.githubRelease author repo tag with
    | some (Except.ok ()) => ([.githubReleaseFetch author repo tag], .ok ())
    | some (Except.error e) => ([.githubReleaseFetch author repo tag], .error e)
    | none =>
      (.githubReleaseFetch author repo tag :: clone.1, clone.2)
  | none => clone

/-- `resolve_plugin` (src/src/plugin/resolver.rs lines 92-177), up to
and including the materialization and the `.locator.json` write; the
trailing manifest read does not touch the claims verified here. The
cached materialization is reused when the locator is not `Local`, the
plugin directory exists, and the recorded stamp equals the current
locator's serialization; otherwise any stale directory is removed and
the locator is materialized afresh. -/
def resolve_plugin (name : String) (locator : PluginLocator)
    (cache : PluginCacheState) (env : ResolveEnv) :
    List ResolveEffect × Except ResolveError Unit :=
  let stamp := locator.stamp
  let allowReuse : Bool :=
    match locator with
    | .localDir _ => false
    | _ => true
  let reuse := allowReuse ∧ cache.dirExists = true
    ∧ cache.descriptor = some stamp
  if reuse then ([.createPluginRoot], .ok ())
  else
    let removal : List ResolveEffect :=
      if cache.dirExists then [.removePluginDir] else []
    let (effs, res) : List ResolveEffect × Except ResolveError Unit :=
      match locator with
      | .cratesIo version =>
        ([.cratesDownload name version],
         if env.cratesOk then .ok () else .error .networkError)
      | .git url rev branch =>
        if rev.isSome ∧ branch.isSome then
          ([], .error (.invalidLocator
            "rev and branch cannot be set simultaneously"))
        else gitMaterialize url rev branch env
      | .localDir path =>
        ([.copyLocalDir path],
         if env.copyOk then .ok () else .error .ioError)
      | .artifactUrl url => fetch_artifact url env
    let descriptorWrite : List ResolveEffect :=
      match res with
      | .ok _ => if allowReuse then [.writeDescriptor stamp] else []
      | .error _ => []
    (.createPluginRoot :: removal ++ effs ++ descriptorWrite, res)

/-! ## Preview server path handling (src/src/serve.rs) -/

/-- A component of a request path, as `Path::components` classifies it. -/
inductive PathComp where
  | rootDir
  | curDir
  | parentDir
  | normal (seg : String)
deriving Repr, DecidableEq

/-- The components of a request path string under Unix `Path::components`
rules: split on `/`, empty runs disappear, `.` is the current directory,
`..` the parent directory, a leading `/` the root. -/
def rawComponents (path : String) : List PathComp :=
  (if path.data.head? = some '/' then [PathComp.rootDir] else [])
    ++ ((splitSlash path.data).map String.mk).filterMap (fun part =>
      if part = "" then none
      else if part = "." then some PathComp.curDir
      else if part = ".." then some PathComp.parentDir
      else some (PathComp.normal part))

/-- The component loop of `sanitize_relative_path` (src/src/serve.rs
lines 406-416): keep `Normal` components, skip `CurDir`, `RootDir` and
prefixes, reject the whole path on any `ParentDir`. -/
def sanitizeComps : List PathComp → Option (List String)
  | [] => some []
  | .parentDir :: _ => none
  | .normal seg :: rest => (sanitizeComps rest).map (seg :: ·)
  | .rootDir :: rest => sanitizeComps rest
  | .curDir :: rest => sanitizeComps rest

/-- `sanitize_relative_path` (src/src/serve.rs lines 406-416), as the
list of kept segments. -/
def sanitize_relative_path (path : String) : Option (List String) :=
  sanitizeComps (rawComponents path)

/-- A file-name segment that came out of `Component::Normal`. -/
def isNormalSeg (seg : String) : Bool :=
  seg != "" && seg != "." && seg != ".."

/-- Rust's `split_file_at_dot` on one file-name segment: the stem/
extension split at the last dot, with no extension when there is no dot
or only a leading one (and `..` has no extension). -/
def lastDotSplit (seg : String) : Option (String × String) :=
  if seg = ".." then none
  else
    let r := seg.data.reverse
    match r.dropWhile (fun c => c ≠ '.') with
    | [] => none
    | _ :: stemR =>
      if stemR.isEmpty then none
      else
        some (String.mk stemR.reverse,
              String.mk (r.takeWhile (fun c => c ≠ '.')).reverse)

/-- `Path::extension` of a final segment. -/
def segExtension (seg : String) : Option String :=
  (lastDotSplit seg).map (fun p => p.2)

/-- `Path::file_stem` of a final segment. -/
def segStem (seg : String) : String :=
  match lastDotSplit seg with
  | some (stem, _) => stem
  | none => seg

/-- `PathBuf::with_extension("html")` restricted to a final segment. -/
def segWithHtml (seg : String) : String := segStem seg ++ ".html"

/-- `with_extension("html")` on a sanitized segment list: replace the
last segment's extension. -/
def withExtensionHtml : List String → List String
  | [] => []
  | segs => segs.dropLast ++ [segWithHtml (segs.getLastD "")]

/-- `path_segments` (src/src/serve.rs lines 441-457): strip the
extension of the final component (`set_extension("")`), fail on an empty
result, and require every remaining component to be `Normal`. -/
def path_segments (relative : List String) : Option (List String) :=
  if relative.isEmpty then none
  else if (relative.dropLast ++ [segStem (relative.getLastD "")]).all
      isNormalSeg
  then some (relative.dropLast ++ [segStem (relative.getLastD "")])
  else none

/-- `split_once('.')` on a string: the parts before and after the first
dot, when there is one. -/
def splitFirstDot (seg : String) : Option (String × String) :=
  match seg.data.dropWhile (fun c => c ≠ '.') with
  | [] => none
  | _ :: after =>
    some (String.mk (seg.data.takeWhile (fun c => c ≠ '.')), String.mk after)

/-- `split_locale_from_segments` (src/src/serve.rs lines 459-477): when
the final segment splits at a dot into two non-empty halves, the first
half is the slug and the second the requested locale. -/
def split_locale_from_segments (segs : List String) :
    Option (List String × Option String) :=
  if segs.isEmpty then none
  else
    match splitFirstDot (segs.getLastD "") with
    | some (slug, loc) =>
      if ¬slug.isEmpty ∧ ¬loc.isEmpty then
        some (segs.dropLast ++ [slug], some loc)
      else some (segs, none)
    | none => some (segs, none)

/-- How a request ends on the HTTP side. -/
inductive ServeOutcome where
  | served
  | notFound
  | internalError
deriving Repr, DecidableEq

/-- Filesystem/render oracles for the branches of `serve_path`. Paths
given to the oracles are relative to the build directory. -/
structure ServeEnv where
  staticIsFile : List String → Bool
  staticIsDir : List String → Bool
  dirIndexIsFile : List String → Bool
  articleOpenOk : List String → Option String → Bool
  renderOk : Bool
  indexUpToDate : Bool
  searchUpToDate : Bool
  articleDirs : List (List String)

/-- A workspace-root-relative path the handler touched (read or wrote),
as its list of segments: the first segment is `build`, `articles` or
`.thought`. -/
abbrev WsPath := List String

/-- The files read while opening and rendering one article
(`Article::open_with_locale` reads the sidecar and content under the
articles directory; `render_article` goes through the redb cache). -/
def articleTouched (segs : List String) (locale : Option String) : List WsPath :=
  let contentFile := match locale with
    | some loc => loc ++ ".md"
    | none => "article.md"
  [("articles" : String) :: segs ++ ["Article.toml"],
   ("articles" : String) :: segs ++ [contentFile],
   [".thought", "cache.redb"]]

/-- Files written when the search bundle is (re)emitted
(`ensure_search_assets` → `search::emit_search_bundle`): the bundle under
the build directory plus the index databases under `.thought`, and the
article sources are re-read for indexing. -/
def searchTouched (dirs : List (List String)) : List WsPath :=
  [["build", "assets", "thought-search", "thought-search.wasm"],
   ["build", "assets", "thought-search", "thought-search.js"],
   [".thought", "search_db"], [".thought", "search_index.redb"]]
    ++ dirs.map (fun d => ("articles" : String) :: d ++ ["Article.toml"])

/-- Files touched when the site index is rebuilt (`ensure_index` reads
every article for the previews and fingerprint and writes
`build/index.html`). -/
def indexTouched (dirs : List (List String)) : List WsPath :=
  [["build", "index.html"]]
    ++ dirs.map (fun d => ("articles" : String) :: d ++ ["Article.toml"])

/-- `ServeState::serve_index` / `ensure_index` (src/src/serve.rs lines
152-155, 280-314): serve `build/index.html`, rebuilding it from the
workspace when stale. -/
def serve_index (env : ServeEnv) : ServeOutcome × List WsPath :=
  if env.indexUpToDate then (.served, [["build", "index.html"]])
  else (.served, indexTouched env.articleDirs)

/-- `ServeState::render_article_for` (src/src/serve.rs lines 214-240):
recover the article segments and locale from the html path, open and
render the article (cache hit or miss), and write the rendered page at
`build/<html path>`. -/
def render_article_for (htmlPath : List String) (env : ServeEnv) :
    ServeOutcome × List WsPath :=
  match path_segments htmlPath with
  | none => (.notFound, [])
  | some [] => (.notFound, [])
  | some segs0 =>
    match split_locale_from_segments segs0 with
    | none => (.notFound, [])
    | some (segs, locale) =>
      if env.articleOpenOk segs locale then
        if env.renderOk then
          (.served, articleTouched segs locale
            ++ [("build" : String) :: htmlPath])
        else (.internalError, articleTouched segs locale)
      else (.notFound, [("articles" : String) :: segs])

/-- The static-file/render dispatch of `ServeState::serve_path`
(src/src/serve.rs lines 167-188), with the search-asset refresh effects
already computed: serve a static file under the build directory if
present, otherwise render an `.html` path on demand, retrying an
extensionless path with `.html`. -/
def serveResolve (segs : List String) (searchEffs : List WsPath)
    (env : ServeEnv) : ServeOutcome × List WsPath :=
  if env.staticIsFile segs then
    (.served, searchEffs ++ [("build" : String) :: segs])
  else if env.staticIsDir segs ∧ env.dirIndexIsFile segs then
    (.served, searchEffs ++ [("build" : String) :: segs ++ ["index.html"]])
  else if segExtension (segs.getLastD "") = some "html" then
    ((render_article_for segs env).1,
     searchEffs ++ [("build" : String) :: segs]
       ++ (render_article_for segs env).2)
  else if segExtension (segs.getLastD "") = none then
    ((render_article_for (withExtensionHtml segs) env).1,
     searchEffs ++ [("build" : String) :: segs]
       ++ (render_article_for (withExtensionHtml segs) env).2)
  else (.notFound, searchEffs ++ [("build" : String) :: segs])

/-- `ServeState::serve_path` (src/src/serve.rs lines 157-189): empty
path → index; a sanitization failure → `NotFound`; then search assets
are refreshed if requested and the request is resolved against the
build directory or rendered on demand. -/
def serve_path (raw : String) (env : ServeEnv) : ServeOutcome × List WsPath :=
  if raw = "" then serve_index env
  else
    match sanitize_relative_path raw with
    | none => (.notFound, [])
    | some [] => serve_index env
    | some segs =>
      serveResolve segs
        (if segs.take 2 = ["assets", "thought-search"]
            ∧ ¬env.searchUpToDate then searchTouched env.articleDirs else [])
        env

/-! ## Search bundle (src/src/search.rs) -/

/-- One record of the search payload, as `Searcher::export_records`
builds it (src/src/search.rs lines 406-423). -/
structure SearchRecord where
  title : String
  slug : String
  category : List String
  description : String
  permalink : String
  locale : String
  defaultLocale : String
deriving Repr, DecidableEq

/-- The record `export_records` pushes for one article. -/
def Article.toSearchRecord (a : Article) : SearchRecord :=
  ⟨a.title, a.slug, a.category.segments, a.description, a.output_file,
   a.locale, a.default_locale⟩

/-- `Searcher::export_records` over the workspace article stream. -/
def Searcher.export_records (dirs : List ArticleDir) : List SearchRecord :=
  (Workspace.articles dirs).map Article.toSearchRecord

/-- The JSON object for one record; `serde_json`'s default `Map` keeps
keys in lexicographic order. -/
def recordJson (r : SearchRecord) : String :=
  "\x7b\"category\":" ++ jsonStringArray r.category
    ++ ",\"default_locale\":" ++ jsonString r.defaultLocale
    ++ ",\"description\":" ++ jsonString r.description
    ++ ",\"locale\":" ++ jsonString r.locale
    ++ ",\"permalink\":" ++ jsonString r.permalink
    ++ ",\"slug\":" ++ jsonString r.slug
    ++ ",\"title\":" ++ jsonString r.title
    ++ "\x7d"

/-- The JSON array `serde_json::to_vec(&records)` serializes. -/
def recordsJson (rs : List SearchRecord) : String :=
  "[" ++ String.intercalate "," (rs.map recordJson) ++ "]"

/-- The payload bytes handed to `encode_payload_as_wasm`. -/
def exportPayload (rs : List SearchRecord) : List Nat :=
  utf8Bytes (recordsJson rs)

/-- What a WebAssembly export refers to. -/
inductive ExportDesc where
  | memoryExport (idx : Nat)
  | funcExport (idx : Nat)
deriving Repr, DecidableEq

/-- The module `Searcher::encode_payload_as_wasm` emits, section by
section: one memory, two `() -> i32` functions whose bodies are single
`i32.const` instructions (in function-section order), the export list,
and one active data segment. -/
structure SearchWasmModule where
  memMinPages : Nat
  exportsList : List (String × ExportDesc)
  funcBodies : List Int
  dataSegOffset : Nat
  dataSegBytes : List Nat
deriving Repr

/-- A `usize` payload length cast `as i32` (two's complement wrap). -/
def asI32 (n : Nat) : Int :=
  if w32 n < 2147483648 then (w32 n : Int) else (w32 n : Int) - 4294967296

/-- `Searcher::encode_payload_as_wasm` (src/src/search.rs lines
425-483): function 0 returns the payload length, function 1 returns 0,
the data segment is the payload placed at offset 0, and the memory spans
`max(ceil(len / 64KiB), 1)` pages. -/
def Searcher.encode_payload_as_wasm (payload : List Nat) : SearchWasmModule :=
  { memMinPages := max ((payload.length + 65535) / 65536) 1
    exportsList := [("memory", .memoryExport 0),
                    ("thought_search_data_len", .funcExport 0),
                    ("thought_search_data_ptr", .funcExport 1)]
    funcBodies := [asI32 payload.length, 0]
    dataSegOffset := 0
    dataSegBytes := payload }

/-! ### A parser for the emitted payload

To state the round-trip property the payload bytes are parsed back.
Decoded strings are represented by their Unicode scalar values (`strCodes`),
which determine the original strings uniquely. -/

/-- The scalar values of a string's characters. -/
def strCodes (s : String) : List Nat := s.data.map Char.toNat

/-- A search record with every string replaced by its scalar values. -/
structure SearchRecordCodes where
  title : List Nat
  slug : List Nat
  category : List (List Nat)
  description : List Nat
  permalink : List Nat
  locale : List Nat
  defaultLocale : List Nat
deriving Repr, DecidableEq

/-- The code-point view of a record. -/
def SearchRecord.codes (r : SearchRecord) : SearchRecordCodes :=
  ⟨strCodes r.title, strCodes r.slug, r.category.map strCodes,
   strCodes r.description, strCodes r.permalink, strCodes r.locale,
   strCodes r.defaultLocale⟩

/-- Drop an expected byte sequence from the front of the input. -/
def dropLit : List Nat → List Nat → Option (List Nat)
  | [], input => some input
  | p :: ps, b :: bs => if b = p then dropLit ps bs else none
  | _ :: _, [] => none

/-- The value of a lowercase hexadecimal digit given by its byte. -/
def hexVal (b : Nat) : Option Nat :=
  if 48 ≤ b ∧ b ≤ 57 then some (b - 48)
  else if 97 ≤ b ∧ b ≤ 102 then some (b - 87)
  else none

/-- Parse the body of a JSON string (escapes and UTF-8 sequences) up to
and including the closing quote, returning the scalar values and the
remaining input. The fuel bounds the number of decoded characters. -/
def parseStrBody : Nat → List Nat → Option (List Nat × List Nat)
  | 0, _ => none
  | _ + 1, [] => none
  | fuel + 1, b :: bs =>
    if b = 34 then some ([], bs)
    else if b = 92 then
      match bs with
      | [] => none
      | e :: rest =>
        if e = 34 ∨ e = 92 then
          (parseStrBody fuel rest).map (fun p => (e :: p.1, p.2))
        else if e = 98 then
          (parseStrBody fuel rest).map (fun p => (8 :: p.1, p.2))
        else if e = 116 then
          (parseStrBody fuel rest).map (fun p => (9 :: p.1, p.2))
        else if e = 110 then
          (parseStrBody fuel rest).map (fun p => (10 :: p.1, p.2))
        else if e = 102 then
          (parseStrBody fuel rest).map (fun p => (12 :: p.1, p.2))
        else if e = 114 then
          (parseStrBody fuel rest).map (fun p => (13 :: p.1, p.2))
        else if e = 117 then
          match rest with
          | h1 :: h2 :: h3 :: h4 :: rest2 =>
            match hexVal h1, hexVal h2, hexVal h3, hexVal h4 with
            | some v1, some v2, some v3, some v4 =>
              (parseStrBody fuel rest2).map (fun p =>
                ((v1 * 4096 + v2 * 256 + v3 * 16 + v4) :: p.1, p.2))
            | _, _, _, _ => none
          | _ => none
        else none
    else if b < 128 then
      (parseStrBody fuel bs).map (fun p => (b :: p.1, p.2))
    else if 194 ≤ b ∧ b ≤ 223 then
      match bs with
      | b1 :: rest =>
        if 128 ≤ b1 ∧ b1 ≤ 191 then
          (parseStrBody fuel rest).map (fun p =>
            (((b - 192) * 64 + (b1 - 128)) :: p.1, p.2))
        else none
      | [] => none
    else if 224 ≤ b ∧ b ≤ 239 then
      match bs with
      | b1 :: b2 :: rest =>
        if 128 ≤ b1 ∧ b1 ≤ 191 ∧ 128 ≤ b2 ∧ b2 ≤ 191 then
          (parseStrBody fuel rest).map (fun p =>
            (((b - 224) * 4096 + (b1 - 128) * 64 + (b2 - 128)) :: p.1, p.2))
        else none
      | _ => none
    else if 240 ≤ b ∧ b ≤ 244 then
      match bs with
      | b1 :: b2 :: b3 :: rest =>
        if 128 ≤ b1 ∧ b1 ≤ 191 ∧ 128 ≤ b2 ∧ b2 ≤ 191
            ∧ 128 ≤ b3 ∧ b3 ≤ 191 then
          (parseStrBody fuel rest).map (fun p =>
            (((b - 240) * 262144 + (b1 - 128) * 4096 + (b2 - 128) * 64
              + (b3 - 128)) :: p.1, p.2))
        else none
      | _ => none
    else none

/-- Parse a JSON string literal (opening quote included). -/
def parseJsonStr (fuel : Nat) : List Nat → Option (List Nat × List Nat)
  | 34 :: rest => parseStrBody fuel rest
  | _ => none

/-- Parse the comma-separated items of a non-empty JSON string array,
up to and including the closing bracket. -/
def parseStrArrayItems : Nat → List Nat → Option (List (List Nat) × List Nat)
  | 0, _ => none
  | fuel + 1, input =>
    match parseJsonStr (fuel + 1) input with
    | none => none
    | some (s, rest) =>
      match rest with
      | 93 :: rest2 => some ([s], rest2)
      | 44 :: rest2 =>
        (parseStrArrayItems fuel rest2).map (fun p => (s :: p.1, p.2))
      | _ => none

/-- Parse a JSON array of strings. -/
def parseStrArray (fuel : Nat) : List Nat → Option (List (List Nat) × List Nat)
  | 91 :: 93 :: rest => some ([], rest)
  | 91 :: rest => parseStrArrayItems fuel rest
  | _ => none

/-- Parse one record object of the search payload. -/
def parseRecord (fuel : Nat) (input : List Nat) :
    Option (SearchRecordCodes × List Nat) :=
  match dropLit (utf8Bytes "\x7b\"category\":") input with
  | none => none
  | some i1 =>
    match parseStrArray fuel i1 with
    | none => none
    | some (category, i2) =>
      match dropLit (utf8Bytes ",\"default_locale\":") i2 with
      | none => none
      | some i3 =>
        match parseJsonStr fuel i3 with
        | none => none
        | some (defaultLocale, i4) =>
          match dropLit (utf8Bytes ",\"description\":") i4 with
          | none => none
          | some i5 =>
            match parseJsonStr fuel i5 with
            | none => none
            | some (description, i6) =>
              match dropLit (utf8Bytes ",\"locale\":") i6 with
              | none => none
              | some i7 =>
                match parseJsonStr fuel i7 with
                | none => none
                | some (locale, i8) =>
                  match dropLit (utf8Bytes ",\"permalink\":") i8 with
                  | none => none
                  | some i9 =>
                    match parseJsonStr fuel i9 with
                    | none => none
                    | some (permalink, i10) =>
                      match dropLit (utf8Bytes ",\"slug\":") i10 with
                      | none => none
                      | some i11 =>
                        match parseJsonStr fuel i11 with
                        | none => none
                        | some (slug, i12) =>
                          match dropLit (utf8Bytes ",\"title\":") i12 with
                          | none => none
                          | some i13 =>
                            match parseJsonStr fuel i13 with
                            | none => none
                            | some (title, i14) =>
                              match dropLit (utf8Bytes "\x7d") i14 with
                              | none => none
                              | some i15 =>
                                some (⟨title, slug, category, description,
                                       permalink, locale, defaultLocale⟩, i15)

/-- Parse the comma-separated records of a non-empty payload array, up
to and including the closing bracket. -/
def parseRecordItems : Nat → List Nat → Option (List SearchRecordCodes × List Nat)
  | 0, _ => none
  | fuel + 1, input =>
    match parseRecord (fuel + 1) input with
    | none => none
    | some (r, rest) =>
      match rest with
      | 93 :: rest2 => some ([r], rest2)
      | 44 :: rest2 =>
        (parseRecordItems fuel rest2).map (fun p => (r :: p.1, p.2))
      | _ => none

/-- Parse a whole search payload: the UTF-8 bytes of the JSON array of
records, which must be consumed entirely. -/
def parseSearchPayload (input : List Nat) : Option (List SearchRecordCodes) :=
  match input with
  | 91 :: 93 :: rest => if rest = [] then some [] else none
  | 91 :: rest =>
    match parseRecordItems input.length rest with
    | some (rs, []) => some rs
    | _ => none
  | _ => none

/-! ## Concrete instances used by counterexamples and witnesses -/

def c1Meta : ArticleMetadata := ⟨1700000000, 0, ["rust"], "Jane", none⟩

/-- Two articles agreeing on every canonical field, in byte-identical
workspaces mounted at different roots. -/
def c1ArticleA : Article :=
  ⟨"# Hi\n", ⟨"Hi", "hello", ⟨"/home/alice/blog", ["posts"], ⟨0, "posts", ""⟩⟩,
    c1Meta, "d", "en", "en", [⟨"en", "Hi"⟩]⟩⟩

def c1ArticleB : Article :=
  ⟨"# Hi\n", ⟨"Hi", "hello", ⟨"/srv/blog", ["posts"], ⟨0, "posts", ""⟩⟩,
    c1Meta, "d", "en", "en", [⟨"en", "Hi"⟩]⟩⟩

/-- Two articles in the same workspace differing only in fields outside
the fingerprint's input (default locale, category metadata, sub-second
timestamp part). -/
def c1WitnessA : Article :=
  ⟨"x", ⟨"T", "s", ⟨"/w", [], ⟨0, "blog", ""⟩⟩,
    ⟨10, 0, [], "a", none⟩, "", "en", "en", [⟨"en", "T"⟩]⟩⟩

def c1WitnessB : Article :=
  ⟨"x", ⟨"T", "s", ⟨"/w", [], ⟨0, "weblog", "desc"⟩⟩,
    ⟨10, 7, [], "a", none⟩, "", "en", "zh", [⟨"en", "T"⟩]⟩⟩

/-- A non-default-locale article in a category: the engine writes it at
`hello.html`, the routing formula says `posts/hello.zh.html`. -/
def c3Article : Article :=
  ⟨"", ⟨"T", "hello", ⟨"/w", ["posts"], ⟨0, "posts", ""⟩⟩,
    ⟨0, 0, [], "", none⟩, "", "zh", "en", []⟩⟩

def c3WitnessPreview : ArticlePreview :=
  ⟨"T", "hello", ⟨"/w", ["posts"], ⟨0, "posts", ""⟩⟩,
   ⟨0, 0, [], "", none⟩, "", "en", "en", []⟩

/-- A default-locale article and its `zh` variant, as the traversal
yields them. -/
def c4Primary : Article :=
  ⟨"# Hi\n", ⟨"Hi", "hi", ⟨"/w", [], ⟨0, "blog", ""⟩⟩, ⟨0, 0, [], "", none⟩,
    "", "en", "en", [⟨"en", "Hi"⟩, ⟨"zh", "你好"⟩]⟩⟩

def c4Variant : Article :=
  ⟨"# 你好\n", ⟨"你好", "hi", ⟨"/w", [], ⟨0, "blog", ""⟩⟩, ⟨0, 0, [], "", none⟩,
    "", "zh", "en", [⟨"en", "Hi"⟩, ⟨"zh", "你好"⟩]⟩⟩

def c4Dirs : List ArticleDir := [⟨c4Primary, [c4Variant]⟩]

def c8Env : ResolveEnv := ⟨fun _ _ _ => none, true, true, true, true, true⟩

def c9Env : ResolveEnv := ⟨fun _ _ _ => none, true, true, true, true, true⟩

def c9Url : String := "http://example.com/plugin.wasm"

/-- A preview-server environment where nothing is cached in the build
directory and the article `posts/hello` exists. -/
def c10Env : ServeEnv :=
  ⟨fun _ => false, fun _ => false, fun _ => false,
   fun segs _ => segs == ["posts", "hello"], true, true, true, []⟩

def c6Dirs : List ArticleDir :=
  [⟨⟨"# Hi\n", ⟨"Hi", "hi", ⟨"/w", ["posts"], ⟨0, "posts", ""⟩⟩,
      ⟨0, 0, [], "", none⟩, "a \"b\"", "en", "en", [⟨"en", "Hi"⟩]⟩⟩, []⟩]

/-- Byte weights used to budget the parser fuel. -/
def strW (s : String) : Nat := s.data.length

def xsW (xs : List String) : Nat := xs.foldr (fun s acc => strW s + 1 + acc) 0

def recW (r : SearchRecord) : Nat :=
  strW r.title + strW r.slug + xsW r.category + strW r.description
    + strW r.permalink + strW r.locale + strW r.defaultLocale + 1

def rsW (rs : List SearchRecord) : Nat :=
  rs.foldr (fun r acc => recW r + 1 + acc) 0

/-- The bytes one source character contributes to a JSON string body. -/
def escCharBytes (c : Char) : List Nat :=
  (escapeChar c).flatMap (fun e => utf8Char e.toNat)

/-- The comma-prefixed tail of a comma-separated list: the normal form
of `String.intercalate ","` used to reason about the JSON arrays. -/
def commaTail : List String → String
  | [] => ""
  | v :: vs => "," ++ v ++ commaTail vs

/-- A touched path that stays inside the workspace: rooted at the
build, articles or cache directory and made of normal segments only. -/
def wsPathOk (p : WsPath) : Bool :=
  (p.headD "" == "build" || p.headD "" == "articles" || p.headD "" == ".thought")
    && (p.drop 1).all isNormalSeg

/-! # Theorems -/

/-! ## C3: locale routing of output paths -/

/-- C3 (counterexample): for the non-default-locale article
`posts/hello` (locale `zh`, default `en`), `ArticlePreview::output_file`
gives `posts/hello.zh.html` but `Engine::generate` writes the rendered
page at `hello.html` - the slug alone, with neither the category
directory nor the locale suffix - so the claimed equality between the
engine's write path and the routed path fails. -/
theorem c3_engine_path_counterexample :
    Article.output_file c3Article = "posts/hello.zh.html"
      ∧ Engine.articleOutputRel c3Article = "hello.html"
      ∧ Engine.articleOutputRel c3Article ≠ Article.output_file c3Article := by
  refine ⟨by decide, rfl, by decide⟩

/-- C3 (amended): `ArticlePreview::output_file` equals
`<category>/<slug>.html` exactly for the default locale and
`<category>/<slug>.<locale>.html` otherwise, while `Engine::generate`
writes every rendered article at `<slug>.html` directly under the
output directory, ignoring category and locale. -/
theorem c3_locale_routing :
    ∀ p : ArticlePreview,
      (p.is_default_locale = true →
        p.output_file
          = String.intercalate "/" (p.category.segments ++ [p.slug]) ++ ".html")
      ∧ (p.is_default_locale = false →
        p.output_file
          = String.intercalate "/" (p.category.segments
              ++ [p.slug ++ "." ++ p.locale]) ++ ".html")
      ∧ ∀ a : Article, Engine.articleOutputRel a = a.slug ++ ".html" := by
  intro p
  refine ⟨fun h => ?_, fun h => ?_, fun a => rfl⟩ <;>
    simp [ArticlePreview.output_file, ArticlePreview.output_path, h]

theorem c3_locale_routing_witness :
    ArticlePreview.is_default_locale c3WitnessPreview = true
      ∧ ArticlePreview.output_file c3WitnessPreview
          = String.intercalate "/" (c3WitnessPreview.category.segments
              ++ [c3WitnessPreview.slug]) ++ ".html" :=
  ⟨by decide, (c3_locale_routing c3WitnessPreview).1 (by decide)⟩

/-! ## C4: previews passed to index generation -/

/-- C4 (counterexample): `Engine::generate` pushes the preview of every
streamed article - here both the default-locale `en` article and its
`zh` variant - so the sequence handed to the index render is not the
default-locale set: it contains a preview whose locale is not the
default. -/
theorem c4_index_previews_counterexample :
    Engine.generatePreviews c4Dirs = [c4Primary.preview, c4Variant.preview]
      ∧ ArticlePreview.is_default_locale (Article.preview c4Variant) = false := by
  exact ⟨rfl, by decide⟩

/-- C4 (amended): the preview server's `collect_previews` passes exactly
the default-locale articles' previews (one per article directory, in
traversal order), while `Engine::generate` passes the previews of every
streamed locale variant, non-default variants included. -/
theorem c4_index_previews :
    ∀ dirs : List ArticleDir, (∀ d ∈ dirs, d.WF = true) →
      ServeState.collect_previews dirs
          = dirs.map (fun d => d.primary.preview)
        ∧ Engine.generatePreviews dirs
          = dirs.flatMap (fun d => (d.primary :: d.variants).map Article.preview) := by
  intro dirs h
  constructor
  · induction dirs with
    | nil => rfl
    | cons d rest ih =>
      have hd := h d (by simp)
      rw [ArticleDir.WF, Bool.and_eq_true, List.all_eq_true] at hd
      have hrest : ∀ x ∈ rest, x.WF = true := fun x hx => h x (by simp [hx])
      have hvar : d.variants.filter Article.is_default_locale = [] := by
        refine List.filter_eq_nil_iff.mpr (fun v hv => ?_)
        have := hd.2 v hv
        simp only [Bool.not_eq_eq_eq_not, Bool.not_true] at this
        simp [this]
      have := ih hrest
      simp [ServeState.collect_previews, Workspace.articles,
            List.filter_append, hvar, hd.1] at this ⊢
      exact this
  · simp [Engine.generatePreviews, Workspace.articles, List.map_flatMap]

theorem c4_index_previews_witness :
    (∀ d ∈ c4Dirs, d.WF = true)
      ∧ ServeState.collect_previews c4Dirs
          = c4Dirs.map (fun d => d.primary.preview) :=
  ⟨by decide, (c4_index_previews c4Dirs (by decide)).1⟩

/-! ## C5: hook pipeline ordering -/

theorem apply_pre_render_pure (hs : List PureHook) (a : Article) :
    PluginManager.apply_pre_render (hs.map PureHook.toHook) a
      = .ok (hs.foldl (fun acc h => h.pre acc) a) := by
  induction hs generalizing a with
  | nil => rfl
  | cons h rest ih =>
    simpa [PluginManager.apply_pre_render, PureHook.toHook] using ih (h.pre a)

theorem apply_post_render_pure (hs : List PureHook) (a : Article) (html : String) :
    PluginManager.apply_post_render (hs.map PureHook.toHook) a html
      = .ok (hs.foldl (fun acc h => h.post a acc) html) := by
  induction hs generalizing html with
  | nil => rfl
  | cons h rest ih =>
    simpa [PluginManager.apply_post_render, PureHook.toHook] using ih (h.post a html)

/-- C5: for hooks `[h1..hn]` in declaration order whose guest calls
succeed, the rendered HTML is
`hn.post(A', ... h1.post(A', theme.generate_page(A')))` where
`A' = hn.pre(... h1.pre(A))`: `apply_pre_render` folds the pre-render
hooks left-to-right over the article, the theme renders the folded
article, and `apply_post_render` folds the post-render hooks
left-to-right over the HTML, each receiving the folded article. -/
theorem c5_render_pipeline :
    ∀ (hs : List PureHook) (page : Article → String)
      (pageIndex : List ArticlePreview → String) (a : Article),
      PluginManager.render_article (hs.map PureHook.toHook)
          (Theme.ofPure page pageIndex) a
        = .ok (hs.foldl
            (fun html h => h.post (hs.foldl (fun acc g => g.pre acc) a) html)
            (page (hs.foldl (fun acc g => g.pre acc) a))) := by
  intro hs page pageIndex a
  simp [PluginManager.render_article, apply_pre_render_pure, Theme.ofPure,
        apply_post_render_pure]

/-! ## C7: search index fingerprint check -/

/-- C7: with a provided fingerprint, `ensure_index` rebuilds exactly
when the stored fingerprint differs or is absent, returns `false`
without rebuilding when it matches, and leaves the provided fingerprint
stored after a rebuild. -/
theorem c7_ensure_index :
    ∀ (fp : String) (stored : Option String),
      ((Searcher.ensure_index (some fp) stored).rebuilt = true ↔ stored ≠ some fp)
        ∧ (stored = some fp →
            Searcher.ensure_index (some fp) stored = ⟨false, false, stored⟩)
        ∧ ((Searcher.ensure_index (some fp) stored).rebuilt = true →
            (Searcher.ensure_index (some fp) stored).stored = some fp) := by
  intro fp stored
  by_cases h : stored = some fp <;> simp [Searcher.ensure_index, h]

theorem c7_ensure_index_witness :
    ((Searcher.ensure_index (some "fp") none).rebuilt = true ↔ none ≠ some "fp")
      ∧ ((none : Option String) = some "fp" →
          Searcher.ensure_index (some "fp") none = ⟨false, false, none⟩)
      ∧ ((Searcher.ensure_index (some "fp") none).rebuilt = true →
          (Searcher.ensure_index (some "fp") none).stored = some "fp") :=
  c7_ensure_index "fp" none

/-! ## C2: render cache hit characterization -/

/-- C2: `RenderCache::hit` returns `Some(html)` exactly when the read
transaction and table open succeed and the `render_cache` table holds,
at the article's output path, an entry that deserializes to a record
whose sha256, title, description, metadata and theme fingerprint all
equal the live article's values and the current theme fingerprint, and
whose stored HTML is that `html`; in every other case - absent key,
failed read transaction, failed deserialization, any mismatch - it
returns `None`. -/
theorem c2_cache_hit_iff :
    ∀ (st : CacheReadState) (a : Article) (θ html : String),
      RenderCache.hit st a θ = some html ↔
        (st.beginReadOk = true ∧ st.openTableOk = true
          ∧ ∃ c : CachedArticle,
              st.table a.output_path = some (some c)
                ∧ c.sha256 = a.sha256 ∧ c.title = a.title
                ∧ c.description = a.description ∧ c.metadata = a.metadata
                ∧ c.themeFingerprint = θ ∧ c.html = html) := by
  intro st a θ html
  unfold RenderCache.hit
  cases h1 : st.beginReadOk
  · simp [h1]
  · cases h2 : st.openTableOk
    · simp [h2]
    · simp only [if_true]
      cases htab : st.table a.output_path with
      | none => simp [htab]
      | some v =>
        cases v with
        | none => simp [htab]
        | some c =>
          simp only [htab, Option.some.injEq]
          by_cases hc : c.sha256 = a.sha256 ∧ c.title = a.title
              ∧ c.description = a.description ∧ c.metadata = a.metadata
              ∧ c.themeFingerprint = θ
          · simp only [hc, if_true]
            constructor
            · intro h
              exact ⟨by trivial, by trivial, c, rfl, hc.1, hc.2.1, hc.2.2.1,
                     hc.2.2.2.1, hc.2.2.2.2, Option.some_inj.mp h⟩
            · rintro ⟨-, -, c2, hc2, -, -, -, -, -, hh⟩
              obtain rfl : c = c2 := by
                simpa using hc2
              simp [hh]
          · simp only [hc, if_false]
            refine iff_of_false (by simp) ?_
            rintro ⟨-, -, c2, hc2, h3, h4, h5, h6, h7, -⟩
            obtain rfl : c = c2 := by simpa using hc2
            exact hc ⟨h3, h4, h5, h6, h7⟩

/-! ## C8: Git locator with both rev and branch -/

/-- C8: `resolve_plugin` rejects a Git locator that sets both a revision
and a branch with `InvalidLocator`, before any clone, release download,
crates download, artifact fetch, descriptor write or other
cache-directory population (given that no previous run left a matching
locator stamp, which a both-set locator never can, since the stamp is
written only after a successful materialization). -/
theorem c8_rev_branch_rejected :
    ∀ (name url : String) (rev branch : Option String)
      (cache : PluginCacheState) (env : ResolveEnv),
      rev.isSome = true → branch.isSome = true →
      (cache.dirExists = false
        ∨ cache.descriptor ≠ some (PluginLocator.git url rev branch).stamp) →
      (resolve_plugin name (.git url rev branch) cache env).2
          = .error (.invalidLocator "rev and branch cannot be set simultaneously")
        ∧ ∀ e ∈ (resolve_plugin name (.git url rev branch) cache env).1,
            e = ResolveEffect.createPluginRoot
              ∨ e = ResolveEffect.removePluginDir := by
  intro name url rev branch cache env hrev hbranch hcache
  have hnoreuse : ¬(True ∧ cache.dirExists = true
      ∧ cache.descriptor = some (PluginLocator.git url rev branch).stamp) := by
    rintro ⟨-, hd, hdesc⟩
    rcases hcache with h | h
    · rw [hd] at h; cases h
    · exact h hdesc
  unfold resolve_plugin
  simp only [if_neg hnoreuse, hrev, hbranch, eq_self_iff_true, and_self,
             if_true, reduceIte]
  refine ⟨by trivial, ?_⟩
  intro e he
  by_cases hd : cache.dirExists = true <;> simp [hd] at he
  · rcases he with h | h
    · exact Or.inl h
    · exact Or.inr h
  · exact Or.inl he

theorem c8_rev_branch_rejected_witness :
    ((some "v1" : Option String).isSome = true)
      ∧ ((some "main" : Option String).isSome = true)
      ∧ (resolve_plugin "p" (.git "https://example.com/r.git" (some "v1")
            (some "main")) ⟨false, none⟩ c8Env).2
          = .error (.invalidLocator
              "rev and branch cannot be set simultaneously") :=
  ⟨by decide, by decide,
   (c8_rev_branch_rejected "p" "https://example.com/r.git" (some "v1")
     (some "main") ⟨false, none⟩ c8Env (by decide) (by decide)
     (Or.inl rfl)).1⟩

/-! ## C9: plain-http artifact URLs -/

/-- C9 (counterexample): for the plain-http artifact URL
`http://example.com/plugin.wasm` the resolver does not reject the
locator: `fetch_artifact` warns, downloads the bytes over insecure HTTP
and materializes them as `main.wasm`, returning success. -/
theorem c9_http_artifact_counterexample :
    (fetch_artifact c9Url c9Env).2 = .ok ()
      ∧ ResolveEffect.httpFetch c9Url true ∈ (fetch_artifact c9Url c9Env).1
      ∧ ResolveEffect.writeMainWasm ∈ (fetch_artifact c9Url c9Env).1 := by
  refine ⟨rfl, by decide, by decide⟩

/-- C9 (amended): for every artifact URL with the plain `http` scheme,
`fetch_artifact` emits the insecure-HTTP warning and still performs the
download over plain HTTP; when the URL ends in `.wasm` and the fetch
succeeds, the artifact is materialized as `main.wasm` and resolution
succeeds. -/
theorem c9_http_warn_and_fetch :
    ∀ (url : String) (env : ResolveEnv),
      urlScheme url = some "http" → env.fetchOk = true →
      ResolveEffect.warnInsecureHttp url ∈ (fetch_artifact url env).1
        ∧ ResolveEffect.httpFetch url true ∈ (fetch_artifact url env).1
        ∧ (strEndsWith (lowerAscii url) ".wasm" = true →
            (fetch_artifact url env).2 = .ok ()
              ∧ ResolveEffect.writeMainWasm ∈ (fetch_artifact url env).1) := by
  intro url env hscheme hfetch
  unfold fetch_artifact
  rw [hscheme]
  simp only [hfetch, if_true, if_false, reduceIte]
  unfold artifactDispatch
  by_cases hw : strEndsWith (lowerAscii url) ".wasm" = true
  · simp [hw]
  · simp only [Bool.not_eq_true] at hw
    by_cases ht : (url.toLower.endsWith ".tar.gz" = true
        ∨ url.toLower.endsWith ".tgz" = true)
    · simp [hw, ht]
    · by_cases hz : url.toLower.endsWith ".zip" = true
      · simp [hw, ht, hz]
      · simp [hw, ht, hz]

theorem c9_http_warn_and_fetch_witness :
    urlScheme c9Url = some "http"
      ∧ (ResolveEffect.warnInsecureHttp c9Url ∈ (fetch_artifact c9Url c9Env).1
          ∧ ResolveEffect.httpFetch c9Url true ∈ (fetch_artifact c9Url c9Env).1
          ∧ (strEndsWith (lowerAscii c9Url) ".wasm" = true →
              (fetch_artifact c9Url c9Env).2 = .ok ()
                ∧ ResolveEffect.writeMainWasm ∈ (fetch_artifact c9Url c9Env).1)) :=
  ⟨by decide, c9_http_warn_and_fetch c9Url c9Env (by decide) rfl⟩

/-! ## C1: article fingerprint and the workspace root -/

/-- C1 (counterexample): `c1ArticleA` and `c1ArticleB` agree on every
canonical field (title, slug, category segments, locale, created unix
timestamp, tags, author, metadata description, extracted description,
content, translations, and even the default locale), differing only in
the workspace root directory - yet `Article::sha256` returns different
hex strings, because the hashed JSON's `category` key holds
`Category::dir`, the absolute category directory. -/
theorem c1_fingerprint_counterexample :
    Article.title c1ArticleA = Article.title c1ArticleB
      ∧ Article.slug c1ArticleA = Article.slug c1ArticleB
      ∧ (Article.category c1ArticleA).segments
          = (Article.category c1ArticleB).segments
      ∧ Article.locale c1ArticleA = Article.locale c1ArticleB
      ∧ (Article.metadata c1ArticleA).created
          = (Article.metadata c1ArticleB).created
      ∧ (Article.metadata c1ArticleA).tags = (Article.metadata c1ArticleB).tags
      ∧ (Article.metadata c1ArticleA).author
          = (Article.metadata c1ArticleB).author
      ∧ (Article.metadata c1ArticleA).description
          = (Article.metadata c1ArticleB).description
      ∧ Article.description c1ArticleA = Article.description c1ArticleB
      ∧ Article.content c1ArticleA = Article.content c1ArticleB
      ∧ Article.translations c1ArticleA = Article.translations c1ArticleB
      ∧ Article.default_locale c1ArticleA = Article.default_locale c1ArticleB
      ∧ Article.sha256 c1ArticleA ≠ Article.sha256 c1ArticleB := by
  exact ⟨rfl, rfl, rfl, rfl, rfl, rfl, rfl, rfl, rfl, rfl, rfl, rfl, by decide⟩

/-- C1 (amended): the fingerprint is a function of the canonical field
set plus the workspace root: two articles agreeing on title, slug,
workspace root, category segments, locale, created unix timestamp,
tags, author, metadata description, extracted description, content and
translations have equal `Article::sha256`, whatever their default
locale, category metadata or sub-second timestamp part. -/
theorem c1_fingerprint_determined :
    ∀ a b : Article,
      a.title = b.title → a.slug = b.slug →
      a.category.workspaceRoot = b.category.workspaceRoot →
      a.category.segments = b.category.segments →
      a.locale = b.locale →
      a.metadata.created = b.metadata.created →
      a.metadata.tags = b.metadata.tags →
      a.metadata.author = b.metadata.author →
      a.metadata.description = b.metadata.description →
      a.description = b.description →
      a.content = b.content →
      a.translations = b.translations →
      a.sha256 = b.sha256 := by
  intro a b h1 h2 h3 h4 h5 h6 h7 h8 h9 h10 h11 h12
  have hdir : a.category.dir = b.category.dir := by
    unfold Category.dir Workspace.articles_dir
    rw [h3, h4]
  have hj : articleJson a = articleJson b := by
    unfold articleJson
    rw [hdir, h1, h2, h5, h6, h7, h8, h9, h10, h11, h12]
  unfold Article.sha256
  rw [hj]

theorem c1_fingerprint_determined_witness :
    c1WitnessA ≠ c1WitnessB
      ∧ Article.sha256 c1WitnessA = Article.sha256 c1WitnessB :=
  ⟨by decide,
   c1_fingerprint_determined c1WitnessA c1WitnessB rfl rfl rfl rfl rfl rfl
     rfl rfl rfl rfl rfl rfl⟩

/-! ## C10: preview server path confinement -/

theorem isNormalSeg_iff (seg : String) :
    isNormalSeg seg = true ↔ seg ≠ "" ∧ seg ≠ "." ∧ seg ≠ ".." := by
  simp [isNormalSeg, bne_iff_ne, and_assoc]

theorem isNormalSeg_append_html (x : String) :
    isNormalSeg (x ++ ".html") = true := by
  rw [isNormalSeg_iff]
  refine ⟨fun h => ?_, fun h => ?_, fun h => ?_⟩ <;>
    · have hl := congrArg String.length h
      rw [String.length_append,
          show (".html" : String).length = 5 from rfl] at hl
      first
        | rw [show ("" : String).length = 0 from rfl] at hl; omega
        | rw [show ("." : String).length = 1 from rfl] at hl; omega
        | rw [show (".." : String).length = 2 from rfl] at hl; omega

theorem sanitizeComps_parentDir (comps : List PathComp) :
    PathComp.parentDir ∈ comps → sanitizeComps comps = none := by
  induction comps with
  | nil => simp
  | cons c rest ih =>
    intro h
    cases c with
    | parentDir => rfl
    | rootDir =>
      have : PathComp.parentDir ∈ rest := by simpa using h
      simpa [sanitizeComps] using ih this
    | curDir =>
      have : PathComp.parentDir ∈ rest := by simpa using h
      simpa [sanitizeComps] using ih this
    | normal seg =>
      have : PathComp.parentDir ∈ rest := by simpa using h
      simp [sanitizeComps, ih this]

theorem rawComponents_normal (path : String) (seg : String) :
    PathComp.normal seg ∈ rawComponents path → isNormalSeg seg = true := by
  intro h
  unfold rawComponents at h
  rw [List.mem_append] at h
  rcases h with h | h
  · by_cases hr : path.data.head? = some '/' <;> simp [hr] at h
  · rw [List.mem_filterMap] at h
    obtain ⟨part, -, hpart⟩ := h
    by_cases h1 : part = ""
    · simp [h1] at hpart
    · by_cases h2 : part = "."
      · simp [h1, h2] at hpart
      · by_cases h3 : part = ".."
        · simp [h1, h2, h3] at hpart
        · simp [h1, h2, h3] at hpart
          rw [isNormalSeg_iff, ← hpart]
          exact ⟨h1, h2, h3⟩

theorem sanitizeComps_normal (comps : List PathComp) (segs : List String)
    (hok : ∀ seg, PathComp.normal seg ∈ comps → isNormalSeg seg = true) :
    sanitizeComps comps = some segs → segs.all isNormalSeg = true := by
  induction comps generalizing segs with
  | nil => intro h; cases h; rfl
  | cons c rest ih =>
    intro h
    cases c with
    | parentDir => cases h
    | rootDir => exact ih segs (fun seg hs => hok seg (by simp [hs])) h
    | curDir => exact ih segs (fun seg hs => hok seg (by simp [hs])) h
    | normal seg =>
      rw [sanitizeComps] at h
      cases hrest : sanitizeComps rest with
      | none => rw [hrest] at h; cases h
      | some segs2 =>
        rw [hrest] at h
        cases h
        have h1 := hok seg (by simp)
        have h2 := ih segs2 (fun x hx => hok x (by simp [hx])) hrest
        simp [h1, h2]

theorem sanitize_relative_path_normal (path : String) (segs : List String) :
    sanitize_relative_path path = some segs → segs.all isNormalSeg = true :=
  sanitizeComps_normal _ _ (fun seg hs => rawComponents_normal path seg hs)

theorem path_segments_normal (rel segs : List String) :
    path_segments rel = some segs → segs.all isNormalSeg = true := by
  unfold path_segments
  intro h
  split at h
  · cases h
  · split at h
    · cases h
      assumption
    · cases h

theorem takeWhile_no_dot (l : List Char) :
    ∀ c ∈ l.takeWhile (fun c => c ≠ '.'), c ≠ '.' := by
  intro c hc
  have := List.mem_takeWhile_imp hc
  simpa using this

theorem split_locale_normal (segs segs2 : List String) (loc : Option String)
    (hall : segs.all isNormalSeg = true) :
    split_locale_from_segments segs = some (segs2, loc) →
      segs2.all isNormalSeg = true ∧ ∀ l, loc = some l → l ≠ "" := by
  unfold split_locale_from_segments
  intro h
  by_cases hne : segs.isEmpty = true
  · rw [if_pos hne] at h; cases h
  · rw [if_neg hne] at h
    cases hsp : splitFirstDot (segs.getLastD "") with
    | none =>
      rw [hsp] at h
      cases h
      exact ⟨hall, by simp⟩
    | some p =>
      obtain ⟨slug, lc⟩ := p
      rw [hsp] at h
      dsimp only at h
      by_cases hg : ¬slug.isEmpty = true ∧ ¬lc.isEmpty = true
      · rw [if_pos hg] at h
        cases h
        constructor
        · rw [List.all_append]
          have hdl : segs.dropLast.all isNormalSeg = true := by
            rw [List.all_eq_true] at hall ⊢
            exact fun x hx => hall x (List.mem_of_mem_dropLast hx)
          have hslug : isNormalSeg slug = true := by
            unfold splitFirstDot at hsp
            cases hdrop : (segs.getLastD "").data.dropWhile
                (fun c => c ≠ '.') with
            | nil => rw [hdrop] at hsp; cases hsp
            | cons d after =>
              rw [hdrop] at hsp
              cases hsp
              rw [isNormalSeg_iff]
              refine ⟨?_, ?_, ?_⟩ <;> intro he
              · exact hg.1 (by rw [he]; rfl)
              · have hdot : '.' ∈ (segs.getLastD "").data.takeWhile
                    (fun c => c ≠ '.') := by
                  have hd2 := congrArg String.data he
                  simp only [String.data] at hd2
                  rw [hd2]
                  decide
                have := List.mem_takeWhile_imp hdot
                simp at this
              · have hdot : '.' ∈ (segs.getLastD "").data.takeWhile
                    (fun c => c ≠ '.') := by
                  have hd2 := congrArg String.data he
                  simp only [String.data] at hd2
                  rw [hd2]
                  decide
                have := List.mem_takeWhile_imp hdot
                simp at this
          simp [hdl, hslug]
        · intro l hl
          cases hl
          intro he
          exact hg.2 (by rw [he]; rfl)
      · rw [if_neg hg] at h
        cases h
        exact ⟨hall, by simp⟩

theorem withExtensionHtml_normal (segs : List String)
    (hall : segs.all isNormalSeg = true) :
    (withExtensionHtml segs).all isNormalSeg = true := by
  cases segs with
  | nil => rfl
  | cons a rest =>
    have hdl : (a :: rest).dropLast.all isNormalSeg = true := by
      rw [List.all_eq_true] at hall ⊢
      exact fun x hx => hall x (List.mem_of_mem_dropLast hx)
    simp only [withExtensionHtml]
    rw [List.all_append]
    simp [hdl, segWithHtml, isNormalSeg_append_html]

theorem isNormalSeg_append_md (x : String) (hx : x ≠ "") :
    isNormalSeg (x ++ ".md") = true := by
  rw [isNormalSeg_iff]
  have hx1 : 1 ≤ x.length := by
    cases x with
    | mk data =>
      cases data with
      | nil => exact absurd rfl hx
      | cons c cs => simp [String.length]
  refine ⟨fun h => ?_, fun h => ?_, fun h => ?_⟩ <;>
    · have hl := congrArg String.length h
      rw [String.length_append,
          show (".md" : String).length = 3 from rfl] at hl
      first
        | rw [show ("" : String).length = 0 from rfl] at hl; omega
        | rw [show ("." : String).length = 1 from rfl] at hl; omega
        | rw [show (".." : String).length = 2 from rfl] at hl; omega

theorem articleTouched_ok (segs : List String) (loc : Option String)
    (hall : segs.all isNormalSeg = true)
    (hloc : ∀ l, loc = some l → l ≠ "") :
    ∀ p ∈ articleTouched segs loc, wsPathOk p = true := by
  have hAT : isNormalSeg "Article.toml" = true := by decide
  have hcr : isNormalSeg "cache.redb" = true := by decide
  cases loc with
  | none =>
    intro p hp
    simp only [articleTouched, List.mem_cons, List.not_mem_nil, or_false] at hp
    have hmd : isNormalSeg "article.md" = true := by decide
    rcases hp with hp | hp | hp <;> subst hp <;>
      simp [wsPathOk, List.all_append, hall, hAT, hmd, hcr]
  | some l =>
    intro p hp
    simp only [articleTouched, List.mem_cons, List.not_mem_nil, or_false] at hp
    have hmd : isNormalSeg (l ++ ".md") = true :=
      isNormalSeg_append_md l (hloc l rfl)
    rcases hp with hp | hp | hp <;> subst hp <;>
      simp [wsPathOk, List.all_append, hall, hAT, hmd, hcr]

theorem render_article_for_ok (htmlPath : List String) (env : ServeEnv)
    (hall : htmlPath.all isNormalSeg = true) :
    ∀ p ∈ (render_article_for htmlPath env).2, wsPathOk p = true := by
  unfold render_article_for
  cases hps : path_segments htmlPath with
  | none => simp
  | some segs0 =>
    cases segs0 with
    | nil => simp
    | cons s0 rest0 =>
      have hn0 : (s0 :: rest0).all isNormalSeg = true :=
        path_segments_normal _ _ hps
      cases hsl : split_locale_from_segments (s0 :: rest0) with
      | none => simp [hsl]
      | some p0 =>
        obtain ⟨segs, loc⟩ := p0
        obtain ⟨hsegs, hloc⟩ := split_locale_normal _ _ _ hn0 hsl
        simp only [hsl]
        intro p hp
        by_cases hopen : env.articleOpenOk segs loc = true
        · by_cases hrender : env.renderOk = true
          · simp only [hopen, hrender, if_true, reduceIte, List.mem_append,
                       List.mem_cons, List.not_mem_nil, or_false] at hp
            rcases hp with hp | hp
            · exact articleTouched_ok segs loc hsegs hloc p hp
            · simp [hp, wsPathOk, hall]
          · simp only [hopen, hrender, if_true, if_false, Bool.false_eq_true,
                       reduceIte] at hp
            exact articleTouched_ok segs loc hsegs hloc p hp
        · simp only [hopen, Bool.false_eq_true, if_false, reduceIte,
                     List.mem_cons, List.not_mem_nil, or_false] at hp
          simp [hp, wsPathOk, hsegs]

theorem indexTouched_ok (dirs : List (List String))
    (hdirs : ∀ d ∈ dirs, d.all isNormalSeg = true) :
    ∀ p ∈ indexTouched dirs, wsPathOk p = true := by
  have hIH : isNormalSeg "index.html" = true := by decide
  have hAT : isNormalSeg "Article.toml" = true := by decide
  intro p hp
  unfold indexTouched at hp
  rw [List.mem_append] at hp
  rcases hp with hp | hp
  · simp only [List.mem_cons, List.not_mem_nil, or_false] at hp
    simp [hp, wsPathOk, hIH]
  · rw [List.mem_map] at hp
    obtain ⟨d, hd, rfl⟩ := hp
    simp [wsPathOk, List.all_append, hdirs d hd, hAT]

theorem searchTouched_ok (dirs : List (List String))
    (hdirs : ∀ d ∈ dirs, d.all isNormalSeg = true) :
    ∀ p ∈ searchTouched dirs, wsPathOk p = true := by
  have hAT : isNormalSeg "Article.toml" = true := by decide
  intro p hp
  unfold searchTouched at hp
  rw [List.mem_append] at hp
  rcases hp with hp | hp
  · simp only [List.mem_cons, List.not_mem_nil, or_false] at hp
    rcases hp with hp | hp | hp | hp <;> subst hp <;> decide
  · rw [List.mem_map] at hp
    obtain ⟨d, hd, rfl⟩ := hp
    simp [wsPathOk, List.all_append, hdirs d hd, hAT]

theorem serve_index_ok (env : ServeEnv)
    (hdirs : ∀ d ∈ env.articleDirs, d.all isNormalSeg = true) :
    ∀ p ∈ (serve_index env).2, wsPathOk p = true := by
  unfold serve_index
  by_cases h : env.indexUpToDate = true
  · simp only [h, if_true, reduceIte]
    intro p hp
    simp only [List.mem_cons, List.not_mem_nil, or_false] at hp
    subst hp
    decide
  · simp only [h, Bool.false_eq_true, if_false, reduceIte]
    exact indexTouched_ok _ hdirs

/-- C10 (counterexample): handling `posts/hello.html` (no `..`
anywhere) serves the article but reads its markdown source under the
`articles` directory and goes through the cache database under
`.thought` - files that do not lie under the build directory - so the
claim that every file read or written for a request lies at the build
directory joined with normal components is false. -/
theorem c10_escape_counterexample :
    (serve_path "posts/hello.html" c10Env).1 = ServeOutcome.served
      ∧ (["articles", "posts", "hello", "article.md"] : List String)
          ∈ (serve_path "posts/hello.html" c10Env).2
      ∧ ¬(∀ p ∈ (serve_path "posts/hello.html" c10Env).2,
            p.headD "" = "build") := by
  refine ⟨rfl, by decide, by decide⟩

theorem serveResolve_ok (segs : List String) (searchEffs : List WsPath)
    (env : ServeEnv) (hnorm : segs.all isNormalSeg = true)
    (hsearch : ∀ p ∈ searchEffs, wsPathOk p = true) :
    ∀ p ∈ (serveResolve segs searchEffs env).2, wsPathOk p = true := by
  unfold serveResolve
  by_cases hsf : env.staticIsFile segs = true
  · rw [if_pos hsf]
    intro p hp
    simp only [List.mem_append, List.mem_cons, List.not_mem_nil,
               or_false] at hp
    rcases hp with hp | hp
    · exact hsearch p hp
    · simp [hp, wsPathOk, hnorm]
  · rw [if_neg hsf]
    by_cases hsd : env.staticIsDir segs = true ∧ env.dirIndexIsFile segs = true
    · rw [if_pos hsd]
      intro p hp
      simp only [List.mem_append, List.mem_cons, List.not_mem_nil,
                 or_false] at hp
      rcases hp with hp | hp
      · exact hsearch p hp
      · have hIH : isNormalSeg "index.html" = true := by decide
        simp [hp, wsPathOk, List.all_append, hnorm, hIH]
    · rw [if_neg hsd]
      by_cases hx : segExtension (segs.getLastD "") = some "html"
      · rw [if_pos hx]
        intro p hp
        simp only [List.mem_append, List.mem_cons, List.not_mem_nil,
                   or_false] at hp
        rcases hp with (hp | hp) | hp
        · exact hsearch p hp
        · simp [hp, wsPathOk, hnorm]
        · exact render_article_for_ok _ env hnorm p hp
      · rw [if_neg hx]
        by_cases hnx : segExtension (segs.getLastD "") = none
        · rw [if_pos hnx]
          intro p hp
          simp only [List.mem_append, List.mem_cons, List.not_mem_nil,
                     or_false] at hp
          rcases hp with (hp | hp) | hp
          · exact hsearch p hp
          · simp [hp, wsPathOk, hnorm]
          · exact render_article_for_ok _ env
              (withExtensionHtml_normal _ hnorm) p hp
        · rw [if_neg hnx]
          intro p hp
          simp only [List.mem_append, List.mem_cons, List.not_mem_nil,
                     or_false] at hp
          rcases hp with hp | hp
          · exact hsearch p hp
          · simp [hp, wsPathOk, hnorm]

/-- C10 (amended): a request path containing a `..` component is
answered `NotFound` with no file touched; any other request touches
only files under the workspace's `build`, `articles` or `.thought`
directories, each at a path of normal components (assuming, as the
filesystem guarantees, that the workspace's own article directory names
are normal). In particular no request-controlled path escapes the
workspace. -/
theorem c10_request_paths :
    ∀ (raw : String) (env : ServeEnv),
      (PathComp.parentDir ∈ rawComponents raw →
        serve_path raw env = (.notFound, []))
        ∧ ((∀ d ∈ env.articleDirs, d.all isNormalSeg = true) →
            ∀ p ∈ (serve_path raw env).2, wsPathOk p = true) := by
  intro raw env
  constructor
  · intro hmem
    have hsan : sanitize_relative_path raw = none :=
      sanitizeComps_parentDir _ hmem
    have hraw : raw ≠ "" := by
      intro h
      rw [h] at hmem
      simp [rawComponents, splitSlash] at hmem
    unfold serve_path
    rw [if_neg hraw, hsan]
  · intro hdirs
    unfold serve_path
    by_cases hraw : raw = ""
    · rw [if_pos hraw]
      exact serve_index_ok env hdirs
    · rw [if_neg hraw]
      cases hsan : sanitize_relative_path raw with
      | none => simp
      | some segs =>
        cases segs with
        | nil => exact serve_index_ok env hdirs
        | cons s0 srest =>
          have hnorm : (s0 :: srest).all isNormalSeg = true :=
            sanitize_relative_path_normal raw _ hsan
          refine serveResolve_ok _ _ env hnorm ?_
          by_cases hc : (s0 :: srest).take 2 = ["assets", "thought-search"]
              ∧ ¬env.searchUpToDate = true
          · rw [if_pos hc]
            exact searchTouched_ok _ hdirs
          · rw [if_neg hc]
            simp

theorem c10_request_paths_witness :
    serve_path "../secret" c10Env = (ServeOutcome.notFound, [])
      ∧ (∀ p ∈ (serve_path "posts/hello.html" c10Env).2, wsPathOk p = true) :=
  ⟨(c10_request_paths "../secret" c10Env).1 (by decide),
   (c10_request_paths "posts/hello.html" c10Env).2 (by decide)⟩

/-! ## C6: search bundle ABI and payload round-trip -/

theorem char_toNat_lt (c : Char) : c.toNat < 1114112 := by
  have h := c.valid
  rcases h with h | ⟨h1, h2⟩
  · exact Nat.lt_trans h (by norm_num)
  · exact h2

theorem charToNat_inj (a b : Char) (h : a.toNat = b.toNat) : a = b :=
  Char.ext (UInt32.ext h)

theorem parseStrBody_ascii (n : Nat) (hn : n < 128) (h34 : n ≠ 34)
    (h92 : n ≠ 92) (fuel : Nat) (tail : List Nat) :
    parseStrBody (fuel + 1) (n :: tail)
      = (parseStrBody fuel tail).map (fun p => (n :: p.1, p.2)) := by
  rw [parseStrBody.eq_def]
  dsimp only
  rw [if_neg h34, if_neg h92, if_pos hn]

theorem parseStrBody_two (n : Nat) (h1 : 128 ≤ n) (h2 : n < 2048)
    (fuel : Nat) (tail : List Nat) :
    parseStrBody (fuel + 1) ((192 + n / 64) :: (128 + n % 64) :: tail)
      = (parseStrBody fuel tail).map (fun p => (n :: p.1, p.2)) := by
  rw [parseStrBody.eq_def]
  dsimp only
  rw [if_neg (by omega), if_neg (by omega), if_neg (by omega),
      if_pos (by omega : 194 ≤ 192 + n / 64 ∧ 192 + n / 64 ≤ 223),
      if_pos (by omega : 128 ≤ 128 + n % 64 ∧ 128 + n % 64 ≤ 191)]
  have harith : (192 + n / 64 - 192) * 64 + (128 + n % 64 - 128) = n := by
    omega
  rw [harith]

theorem parseStrBody_three (n : Nat) (h1 : 2048 ≤ n) (h2 : n < 65536)
    (fuel : Nat) (tail : List Nat) :
    parseStrBody (fuel + 1)
        ((224 + n / 4096) :: (128 + n / 64 % 64) :: (128 + n % 64) :: tail)
      = (parseStrBody fuel tail).map (fun p => (n :: p.1, p.2)) := by
  rw [parseStrBody.eq_def]
  dsimp only
  rw [if_neg (by omega), if_neg (by omega), if_neg (by omega),
      if_neg (by omega),
      if_pos (by omega : 224 ≤ 224 + n / 4096 ∧ 224 + n / 4096 ≤ 239),
      if_pos (by omega : 128 ≤ 128 + n / 64 % 64 ∧ 128 + n / 64 % 64 ≤ 191
        ∧ 128 ≤ 128 + n % 64 ∧ 128 + n % 64 ≤ 191)]
  have harith : (224 + n / 4096 - 224) * 4096 + (128 + n / 64 % 64 - 128) * 64
      + (128 + n % 64 - 128) = n := by
    omega
  rw [harith]

theorem parseStrBody_four (n : Nat) (h1 : 65536 ≤ n) (h2 : n < 1114112)
    (fuel : Nat) (tail : List Nat) :
    parseStrBody (fuel + 1)
        ((240 + n / 262144) :: (128 + n / 4096 % 64) :: (128 + n / 64 % 64)
          :: (128 + n % 64) :: tail)
      = (parseStrBody fuel tail).map (fun p => (n :: p.1, p.2)) := by
  rw [parseStrBody.eq_def]
  dsimp only
  rw [if_neg (by omega), if_neg (by omega), if_neg (by omega),
      if_neg (by omega), if_neg (by omega),
      if_pos (by omega : 240 ≤ 240 + n / 262144 ∧ 240 + n / 262144 ≤ 244),
      if_pos (by omega : 128 ≤ 128 + n / 4096 % 64 ∧ 128 + n / 4096 % 64 ≤ 191
        ∧ 128 ≤ 128 + n / 64 % 64 ∧ 128 + n / 64 % 64 ≤ 191
        ∧ 128 ≤ 128 + n % 64 ∧ 128 + n % 64 ≤ 191)]
  have harith : (240 + n / 262144 - 240) * 262144
      + (128 + n / 4096 % 64 - 128) * 4096 + (128 + n / 64 % 64 - 128) * 64
      + (128 + n % 64 - 128) = n := by
    omega
  rw [harith]

theorem hexVal_hexDigit : ∀ k < 16, hexVal (hexDigit k).toNat = some k := by
  decide

theorem parseStrBody_uEscape (n : Nat) (hn : n < 32) (fuel : Nat)
    (tail : List Nat) :
    parseStrBody (fuel + 1)
        (92 :: 117 :: 48 :: 48 :: (hexDigit (n / 16)).toNat
          :: (hexDigit (n % 16)).toNat :: tail)
      = (parseStrBody fuel tail).map (fun p => (n :: p.1, p.2)) := by
  have e3 : hexVal (hexDigit (n / 16)).toNat = some (n / 16) :=
    hexVal_hexDigit (n / 16) (by omega)
  have e4 : hexVal (hexDigit (n % 16)).toNat = some (n % 16) :=
    hexVal_hexDigit (n % 16) (by omega)
  rw [parseStrBody.eq_def]
  dsimp only
  rw [if_neg (by omega), if_pos rfl, if_neg (by omega), if_neg (by omega),
      if_neg (by omega), if_neg (by omega), if_neg (by omega),
      if_neg (by omega), if_pos rfl,
      show hexVal 48 = some 0 from rfl, e3, e4]
  dsimp only
  have harith : 0 * 4096 + 0 * 256 + n / 16 * 16 + n % 16 = n := by omega
  rw [harith]

theorem utf8Char_eq_one (n : Nat) (h : n < 128) : utf8Char n = [n] := by
  rw [utf8Char, if_pos h]

theorem utf8Char_eq_two (n : Nat) (h1 : 128 ≤ n) (h2 : n < 2048) :
    utf8Char n = [192 + n / 64, 128 + n % 64] := by
  rw [utf8Char, if_neg (by omega), if_pos h2]

theorem utf8Char_eq_three (n : Nat) (h1 : 2048 ≤ n) (h2 : n < 65536) :
    utf8Char n = [224 + n / 4096, 128 + n / 64 % 64, 128 + n % 64] := by
  rw [utf8Char, if_neg (by omega), if_neg (by omega), if_pos h2]

theorem utf8Char_eq_four (n : Nat) (h1 : 65536 ≤ n) :
    utf8Char n = [240 + n / 262144, 128 + n / 4096 % 64, 128 + n / 64 % 64,
                  128 + n % 64] := by
  rw [utf8Char, if_neg (by omega), if_neg (by omega), if_neg (by omega)]

theorem parseStrBody_escChar (c : Char) (fuel : Nat) (tail : List Nat) :
    parseStrBody (fuel + 1) (escCharBytes c ++ tail)
      = (parseStrBody fuel tail).map (fun p => (c.toNat :: p.1, p.2)) := by
  by_cases h1 : c = '"'
  · subst h1
    show parseStrBody (fuel + 1) (92 :: 34 :: tail) = _
    rw [parseStrBody.eq_def]
    dsimp only
    norm_num
    rfl
  · by_cases h2 : c = '\\'
    · subst h2
      show parseStrBody (fuel + 1) (92 :: 92 :: tail) = _
      rw [parseStrBody.eq_def]
      dsimp only
      norm_num
      rfl
    · by_cases h3 : c.toNat = 8
      · have hb : escCharBytes c = [92, 98] := by
          unfold escCharBytes escapeChar
          rw [if_neg h1, if_neg h2, if_pos h3]
          rfl
        rw [hb, h3, parseStrBody.eq_def]
        norm_num
      · by_cases h4 : c.toNat = 9
        · have hb : escCharBytes c = [92, 116] := by
            unfold escCharBytes escapeChar
            rw [if_neg h1, if_neg h2, if_neg h3, if_pos h4]
            rfl
          rw [hb, h4, parseStrBody.eq_def]
          norm_num
        · by_cases h5 : c.toNat = 10
          · have hb : escCharBytes c = [92, 110] := by
              unfold escCharBytes escapeChar
              rw [if_neg h1, if_neg h2, if_neg h3, if_neg h4, if_pos h5]
              rfl
            rw [hb, h5, parseStrBody.eq_def]
            norm_num
          · by_cases h6 : c.toNat = 12
            · have hb : escCharBytes c = [92, 102] := by
                unfold escCharBytes escapeChar
                rw [if_neg h1, if_neg h2, if_neg h3, if_neg h4, if_neg h5,
                    if_pos h6]
                rfl
              rw [hb, h6, parseStrBody.eq_def]
              norm_num
            · by_cases h7 : c.toNat = 13
              · have hb : escCharBytes c = [92, 114] := by
                  unfold escCharBytes escapeChar
                  rw [if_neg h1, if_neg h2, if_neg h3, if_neg h4, if_neg h5,
                      if_neg h6, if_pos h7]
                  rfl
                rw [hb, h7, parseStrBody.eq_def]
                norm_num
              · by_cases h8 : c.toNat < 32
                · have hb : escCharBytes c
                      = [92, 117, 48, 48, (hexDigit (c.toNat / 16)).toNat,
                         (hexDigit (c.toNat % 16)).toNat] := by
                    unfold escCharBytes escapeChar
                    rw [if_neg h1, if_neg h2, if_neg h3, if_neg h4, if_neg h5,
                        if_neg h6, if_neg h7, if_pos h8]
                    have hhi : (hexDigit (c.toNat / 16)).toNat < 128 := by
                      have : c.toNat / 16 < 16 := by omega
                      interval_cases h : (c.toNat / 16) <;> decide
                    have hlo : (hexDigit (c.toNat % 16)).toNat < 128 := by
                      have : c.toNat % 16 < 16 := by omega
                      interval_cases h : (c.toNat % 16) <;> decide
                    simp [utf8Char_eq_one, hhi, hlo]
                  rw [hb]
                  exact parseStrBody_uEscape c.toNat h8 fuel tail
                · have hb : escCharBytes c = utf8Char c.toNat := by
                    unfold escCharBytes escapeChar
                    rw [if_neg h1, if_neg h2, if_neg h3, if_neg h4, if_neg h5,
                        if_neg h6, if_neg h7, if_neg h8]
                    simp
                  rw [hb]
                  have h34 : c.toNat ≠ 34 := fun h =>
                    h1 (charToNat_inj c '"' (by rw [h]; rfl))
                  have h92 : c.toNat ≠ 92 := fun h =>
                    h2 (charToNat_inj c '\\' (by rw [h]; rfl))
                  by_cases ha : c.toNat < 128
                  · rw [utf8Char_eq_one c.toNat ha]
                    exact parseStrBody_ascii c.toNat ha h34 h92 fuel tail
                  · by_cases hb2 : c.toNat < 2048
                    · rw [utf8Char_eq_two c.toNat (by omega) hb2]
                      exact parseStrBody_two c.toNat (by omega) hb2 fuel tail
                    · by_cases hc2 : c.toNat < 65536
                      · rw [utf8Char_eq_three c.toNat (by omega) hc2]
                        exact parseStrBody_three c.toNat (by omega) hc2
                          fuel tail
                      · rw [utf8Char_eq_four c.toNat (by omega)]
                        exact parseStrBody_four c.toNat (by omega)
                          (char_toNat_lt c) fuel tail

theorem utf8Bytes_append (a b : String) :
    utf8Bytes (a ++ b) = utf8Bytes a ++ utf8Bytes b := by
  simp [utf8Bytes, String.data_append, List.flatMap_append]

theorem utf8Bytes_mk (l : List Char) :
    utf8Bytes (String.mk l) = l.flatMap (fun c => utf8Char c.toNat) := rfl

theorem utf8Bytes_jsonString (s : String) :
    utf8Bytes (jsonString s)
      = 34 :: (s.data.flatMap escCharBytes ++ [34]) := by
  rw [jsonString, utf8Bytes_append, utf8Bytes_append]
  rw [show utf8Bytes "\"" = [34] from rfl, utf8Bytes_mk, List.bind_assoc]
  rfl

theorem parseStrBody_escList (cs : List Char) (tail : List Nat) :
    ∀ fuel, cs.length < fuel →
      parseStrBody fuel (cs.flatMap escCharBytes ++ (34 :: tail))
        = some (cs.map Char.toNat, tail) := by
  induction cs with
  | nil =>
    intro fuel hf
    cases fuel with
    | zero => omega
    | succ f =>
      show parseStrBody (f + 1) (34 :: tail) = _
      rw [parseStrBody.eq_def]
      dsimp only
      rw [if_pos rfl]
      rfl
  | cons c rest ih =>
    intro fuel hf
    cases fuel with
    | zero => omega
    | succ f =>
      rw [List.flatMap_cons, List.append_assoc, parseStrBody_escChar,
          ih f (by simpa using Nat.lt_of_succ_lt_succ hf)]
      rfl

theorem parseJsonStr_round (s : String) (tail : List Nat) (fuel : Nat)
    (hf : s.data.length < fuel) :
    parseJsonStr fuel (utf8Bytes (jsonString s) ++ tail)
      = some (strCodes s, tail) := by
  rw [utf8Bytes_jsonString,
      show (34 :: (s.data.flatMap escCharBytes ++ [34])) ++ tail
        = 34 :: (s.data.flatMap escCharBytes ++ (34 :: tail)) by simp]
  rw [parseJsonStr]
  exact parseStrBody_escList s.data tail fuel hf

theorem dropLit_append (pat rest : List Nat) :
    dropLit pat (pat ++ rest) = some rest := by
  induction pat with
  | nil => rfl
  | cons p ps ih => simp [dropLit, ih]

theorem intercalate_go_comma (xs : List String) :
    ∀ acc : String, String.intercalate.go acc "," xs = acc ++ commaTail xs := by
  induction xs with
  | nil =>
    intro acc
    rw [String.intercalate.go, commaTail, String.append_empty]
  | cons x rest ih =>
    intro acc
    rw [String.intercalate.go, ih, commaTail]
    simp [String.append_assoc]

theorem intercalate_comma (x : String) (xs : List String) :
    String.intercalate "," (x :: xs) = x ++ commaTail xs := by
  rw [String.intercalate, intercalate_go_comma]

theorem parseStrArrayItems_round (xs : List String) :
    ∀ (fuel : Nat) (tail : List Nat), xs ≠ [] → xsW xs < fuel →
      parseStrArrayItems fuel
          (utf8Bytes (String.intercalate "," (xs.map jsonString))
            ++ (93 :: tail))
        = some (xs.map strCodes, tail) := by
  induction xs with
  | nil => intro fuel tail hne hf; exact absurd rfl hne
  | cons x rest ih =>
    intro fuel tail hne hf
    cases fuel with
    | zero =>
      exfalso
      have : strW x + 1 + xsW rest = xsW (x :: rest) := rfl
      omega
    | succ f =>
      rw [List.map_cons, intercalate_comma, utf8Bytes_append,
          List.append_assoc]
      rw [parseStrArrayItems]
      rw [parseJsonStr_round x _ (f + 1) (by
        have : strW x + 1 + xsW rest = xsW (x :: rest) := rfl
        unfold strW at this
        omega)]
      cases rest with
      | nil =>
        rw [show utf8Bytes (commaTail (List.map jsonString [])) = []
            from rfl]
        rfl
      | cons y ys =>
        have hct : utf8Bytes (commaTail (List.map jsonString (y :: ys)))
              ++ (93 :: tail)
            = 44 :: (utf8Bytes (String.intercalate ","
                ((y :: ys).map jsonString)) ++ (93 :: tail)) := by
          simp only [List.map_cons, commaTail, intercalate_comma,
            utf8Bytes_append, List.append_assoc]
          rw [show utf8Bytes "," = [44] from rfl]
          simp [List.append_assoc]
        rw [hct]
        dsimp only
        rw [ih f tail (by simp) (by
          have : strW x + 1 + xsW (y :: ys) = xsW (x :: y :: ys) := rfl
          omega)]
        rfl

theorem parseStrArray_round (xs : List String) (fuel : Nat)
    (tail : List Nat) (hf : xsW xs < fuel) :
    parseStrArray fuel (utf8Bytes (jsonStringArray xs) ++ tail)
      = some (xs.map strCodes, tail) := by
  cases xs with
  | nil =>
    rw [show utf8Bytes (jsonStringArray []) = [91, 93] from rfl]
    rfl
  | cons x rest =>
    have harg : utf8Bytes (jsonStringArray (x :: rest)) ++ tail
        = 91 :: (utf8Bytes (String.intercalate ","
            ((x :: rest).map jsonString)) ++ (93 :: tail)) := by
      rw [jsonStringArray, utf8Bytes_append, utf8Bytes_append,
          show utf8Bytes "[" = [91] from rfl,
          show utf8Bytes "]" = [93] from rfl]
      simp [List.append_assoc]
    rw [harg]
    have hhead : utf8Bytes (String.intercalate ","
          ((x :: rest).map jsonString))
        = 34 :: (x.data.flatMap escCharBytes ++ [34]
            ++ utf8Bytes (commaTail (List.map jsonString rest))) := by
      rw [List.map_cons, intercalate_comma, utf8Bytes_append,
          utf8Bytes_jsonString]
      simp [List.append_assoc]
    rw [hhead, List.cons_append, parseStrArray.eq_def]
    dsimp only
    rw [show 34 :: (x.data.flatMap escCharBytes ++ [34]
          ++ utf8Bytes (commaTail (List.map jsonString rest))
          ++ (93 :: tail))
        = utf8Bytes (String.intercalate ","
            ((x :: rest).map jsonString)) ++ (93 :: tail)
      from by rw [hhead]; simp [List.append_assoc]]
    exact parseStrArrayItems_round (x :: rest) fuel tail (by simp) hf

theorem utf8Char_len_pos (n : Nat) : 1 ≤ (utf8Char n).length := by
  unfold utf8Char
  split
  · simp
  · split
    · simp
    · split <;> simp

theorem escapeChar_ne_nil (c : Char) : escapeChar c ≠ [] := by
  unfold escapeChar
  repeat' split
  all_goals simp

theorem escCharBytes_len_pos (c : Char) : 1 ≤ (escCharBytes c).length := by
  unfold escCharBytes
  cases he : escapeChar c with
  | nil => exact absurd he (escapeChar_ne_nil c)
  | cons e es =>
    rw [List.flatMap_cons, List.length_append]
    have := utf8Char_len_pos e.toNat
    omega

theorem escBytes_len_ge (cs : List Char) :
    cs.length ≤ (cs.flatMap escCharBytes).length := by
  induction cs with
  | nil => simp
  | cons c cs' ih =>
    rw [List.flatMap_cons, List.length_append, List.length_cons]
    have := escCharBytes_len_pos c
    omega

theorem jsonString_bytes_len (s : String) :
    s.data.length + 2 ≤ (utf8Bytes (jsonString s)).length := by
  rw [utf8Bytes_jsonString]
  simp only [List.length_cons, List.length_append]
  have := escBytes_len_ge s.data
  simp only [List.length_nil]
  omega

theorem commaTailS_bytes_len (xs : List String) :
    xsW xs ≤ (utf8Bytes (commaTail (xs.map jsonString))).length := by
  induction xs with
  | nil => simp [xsW]
  | cons x rest ih =>
    rw [List.map_cons, commaTail]
    simp only [utf8Bytes_append, List.length_append]
    have h1 := jsonString_bytes_len x
    have h2 : xsW (x :: rest) = strW x + 1 + xsW rest := rfl
    have h3 : strW x = x.data.length := rfl
    omega

theorem jsonStringArray_bytes_len (xs : List String) :
    xsW xs + 1 ≤ (utf8Bytes (jsonStringArray xs)).length := by
  cases xs with
  | nil => decide
  | cons x rest =>
    rw [jsonStringArray, List.map_cons, intercalate_comma]
    simp only [utf8Bytes_append, List.length_append]
    have h1 := jsonString_bytes_len x
    have h2 := commaTailS_bytes_len rest
    have h3 : xsW (x :: rest) = strW x + 1 + xsW rest := rfl
    have h4 : strW x = x.data.length := rfl
    omega

theorem recordJson_bytes_len (r : SearchRecord) :
    recW r + 1 ≤ (utf8Bytes (recordJson r)).length := by
  rw [recordJson]
  simp only [utf8Bytes_append, List.length_append]
  have h1 := jsonStringArray_bytes_len r.category
  have h2 := jsonString_bytes_len r.defaultLocale
  have h3 := jsonString_bytes_len r.description
  have h4 := jsonString_bytes_len r.locale
  have h5 := jsonString_bytes_len r.permalink
  have h6 := jsonString_bytes_len r.slug
  have h7 := jsonString_bytes_len r.title
  have e1 : recW r = strW r.title + strW r.slug + xsW r.category
      + strW r.description + strW r.permalink + strW r.locale
      + strW r.defaultLocale + 1 := rfl
  have e2 : strW r.title = r.title.data.length := rfl
  have e3 : strW r.slug = r.slug.data.length := rfl
  have e4 : strW r.description = r.description.data.length := rfl
  have e5 : strW r.permalink = r.permalink.data.length := rfl
  have e6 : strW r.locale = r.locale.data.length := rfl
  have e7 : strW r.defaultLocale = r.defaultLocale.data.length := rfl
  omega

theorem commaTailR_bytes_len (rs : List SearchRecord) :
    rsW rs ≤ (utf8Bytes (commaTail (rs.map recordJson))).length := by
  induction rs with
  | nil => simp [rsW]
  | cons r rest ih =>
    rw [List.map_cons, commaTail]
    simp only [utf8Bytes_append, List.length_append]
    have h1 := recordJson_bytes_len r
    have h2 : rsW (r :: rest) = recW r + 1 + rsW rest := rfl
    omega

theorem parseRecord_round (r : SearchRecord) (fuel : Nat) (tail : List Nat)
    (hf : recW r < fuel) :
    parseRecord fuel (utf8Bytes (recordJson r) ++ tail)
      = some (SearchRecord.codes r, tail) := by
  have h5 : strW r.title + strW r.slug + xsW r.category + strW r.description
      + strW r.permalink + strW r.locale + strW r.defaultLocale + 1 < fuel := hf
  have hs : ∀ s : String, strW s = s.data.length := fun _ => rfl
  have hcat : xsW r.category < fuel := by omega
  have hdl : r.defaultLocale.data.length < fuel := by
    rw [← hs]; omega
  have hde : r.description.data.length < fuel := by rw [← hs]; omega
  have hlo : r.locale.data.length < fuel := by rw [← hs]; omega
  have hpe : r.permalink.data.length < fuel := by rw [← hs]; omega
  have hsl : r.slug.data.length < fuel := by rw [← hs]; omega
  have hti : r.title.data.length < fuel := by rw [← hs]; omega
  rw [recordJson]
  simp only [utf8Bytes_append, List.append_assoc]
  unfold parseRecord
  rw [dropLit_append]
  dsimp only
  rw [parseStrArray_round r.category fuel _ hcat]
  dsimp only
  rw [dropLit_append]
  dsimp only
  rw [parseJsonStr_round r.defaultLocale _ fuel hdl]
  dsimp only
  rw [dropLit_append]
  dsimp only
  rw [parseJsonStr_round r.description _ fuel hde]
  dsimp only
  rw [dropLit_append]
  dsimp only
  rw [parseJsonStr_round r.locale _ fuel hlo]
  dsimp only
  rw [dropLit_append]
  dsimp only
  rw [parseJsonStr_round r.permalink _ fuel hpe]
  dsimp only
  rw [dropLit_append]
  dsimp only
  rw [parseJsonStr_round r.slug _ fuel hsl]
  dsimp only
  rw [dropLit_append]
  dsimp only
  rw [parseJsonStr_round r.title _ fuel hti]
  dsimp only
  rw [dropLit_append]
  rfl

theorem parseRecordItems_round (rs : List SearchRecord) :
    ∀ (fuel : Nat) (tail : List Nat), rs ≠ [] → rsW rs < fuel →
      parseRecordItems fuel
          (utf8Bytes (String.intercalate "," (rs.map recordJson))
            ++ (93 :: tail))
        = some (rs.map SearchRecord.codes, tail) := by
  induction rs with
  | nil => intro fuel tail hne hf; exact absurd rfl hne
  | cons x rest ih =>
    intro fuel tail hne hf
    cases fuel with
    | zero =>
      exfalso
      have : recW x + 1 + rsW rest = rsW (x :: rest) := rfl
      omega
    | succ f =>
      rw [List.map_cons, intercalate_comma, utf8Bytes_append,
          List.append_assoc]
      rw [parseRecordItems]
      rw [parseRecord_round x (f + 1) _ (by
        have : recW x + 1 + rsW rest = rsW (x :: rest) := rfl
        omega)]
      cases rest with
      | nil =>
        rw [show utf8Bytes (commaTail (List.map recordJson [])) = []
            from rfl]
        rfl
      | cons y ys =>
        have hct : utf8Bytes (commaTail (List.map recordJson (y :: ys)))
              ++ (93 :: tail)
            = 44 :: (utf8Bytes (String.intercalate ","
                ((y :: ys).map recordJson)) ++ (93 :: tail)) := by
          simp only [List.map_cons, commaTail, intercalate_comma,
            utf8Bytes_append, List.append_assoc]
          rw [show utf8Bytes "," = [44] from rfl]
          simp [List.append_assoc]
        rw [hct]
        dsimp only
        rw [ih f tail (by simp) (by
          have : recW x + 1 + rsW (y :: ys) = rsW (x :: y :: ys) := rfl
          omega)]
        rfl

theorem parseSearchPayload_round (rs : List SearchRecord) :
    parseSearchPayload (exportPayload rs)
      = some (rs.map SearchRecord.codes) := by
  cases rs with
  | nil => decide
  | cons r rest =>
    obtain ⟨L, hL⟩ : ∃ L,
        utf8Bytes (String.intercalate "," ((r :: rest).map recordJson))
          = 123 :: L := by
      rw [List.map_cons, intercalate_comma, recordJson]
      simp only [utf8Bytes_append, List.append_assoc]
      rw [show utf8Bytes "\x7b\"category\":"
          = 123 :: [34, 99, 97, 116, 101, 103, 111, 114, 121, 34, 58]
        from by decide]
      rw [List.cons_append]
      exact ⟨_, rfl⟩
    have harg : utf8Bytes (recordsJson (r :: rest))
        = 91 :: 123 :: (L ++ [93]) := by
      rw [recordsJson]
      simp only [utf8Bytes_append, List.append_assoc]
      rw [show utf8Bytes "[" = [91] from by decide,
          show utf8Bytes "]" = [93] from by decide, hL]
      simp
    rw [exportPayload, harg]
    unfold parseSearchPayload
    dsimp only
    rw [show (123 : Nat) :: (L ++ [93])
        = utf8Bytes (String.intercalate "," ((r :: rest).map recordJson))
          ++ (93 :: ([] : List Nat))
      from by rw [hL]; simp]
    rw [parseRecordItems_round (r :: rest) _ [] (by simp) (by
      have h1 := recordJson_bytes_len r
      have h2 := commaTailR_bytes_len rest
      have h3 : rsW (r :: rest) = recW r + 1 + rsW rest := rfl
      simp only [List.map_cons, intercalate_comma, utf8Bytes_append,
        List.length_cons, List.length_append]
      omega)]

theorem strCodes_inj (a b : String) (h : strCodes a = strCodes b) : a = b := by
  have hinj : Function.Injective Char.toNat :=
    fun x y hxy => charToNat_inj x y hxy
  have : a.data = b.data := List.map_injective_iff.mpr hinj h
  exact String.ext this

theorem searchRecord_codes_inj (r1 r2 : SearchRecord)
    (h : SearchRecord.codes r1 = SearchRecord.codes r2) : r1 = r2 := by
  cases r1; cases r2
  simp only [SearchRecord.codes, SearchRecordCodes.mk.injEq] at h
  obtain ⟨h1, h2, h3, h4, h5, h6, h7⟩ := h
  simp only [SearchRecord.mk.injEq]
  exact ⟨strCodes_inj _ _ h1, strCodes_inj _ _ h2,
    List.map_injective_iff.mpr (fun x y hxy => strCodes_inj x y hxy) h3,
    strCodes_inj _ _ h4, strCodes_inj _ _ h5, strCodes_inj _ _ h6,
    strCodes_inj _ _ h7⟩

/-- C6: for every article stream, `Searcher::encode_payload_as_wasm`
applied to the `export_records` payload exports `memory`,
`thought_search_data_len` (function 0, returning the payload byte
length, faithfully whenever the payload is under `i32::MAX` bytes) and
`thought_search_data_ptr` (function 1, returning 0); its single data
segment sits at memory offset 0 and holds exactly the UTF-8 JSON array
of the per-article records (keys `category`, `default_locale`,
`description`, `locale`, `permalink`, `slug`, `title`); and parsing
those bytes back reproduces each article's record tuple - the parse
succeeds, yields the records' code-point images in order, and those
images determine the records uniquely. -/
theorem c6_search_bundle (dirs : List ArticleDir)
    (hlen : (exportPayload (Searcher.export_records dirs)).length
      < 2147483648) :
    (Searcher.encode_payload_as_wasm
        (exportPayload (Searcher.export_records dirs))).exportsList
      = [("memory", ExportDesc.memoryExport 0),
         ("thought_search_data_len", ExportDesc.funcExport 0),
         ("thought_search_data_ptr", ExportDesc.funcExport 1)]
    ∧ (Searcher.encode_payload_as_wasm
        (exportPayload (Searcher.export_records dirs))).funcBodies
      = [((exportPayload (Searcher.export_records dirs)).length : Int), 0]
    ∧ (Searcher.encode_payload_as_wasm
        (exportPayload (Searcher.export_records dirs))).dataSegOffset = 0
    ∧ (Searcher.encode_payload_as_wasm
        (exportPayload (Searcher.export_records dirs))).dataSegBytes
      = exportPayload (Searcher.export_records dirs)
    ∧ parseSearchPayload
        (Searcher.encode_payload_as_wasm
          (exportPayload (Searcher.export_records dirs))).dataSegBytes
      = some ((Searcher.export_records dirs).map SearchRecord.codes)
    ∧ ∀ rs' : List SearchRecord,
        rs'.map SearchRecord.codes
          = (Searcher.export_records dirs).map SearchRecord.codes
        → rs' = Searcher.export_records dirs := by
  refine ⟨rfl, ?_, rfl, rfl, ?_, ?_⟩
  · show [asI32 (exportPayload (Searcher.export_records dirs)).length, 0] = _
    have hw : w32 (exportPayload (Searcher.export_records dirs)).length
        = (exportPayload (Searcher.export_records dirs)).length :=
      Nat.mod_eq_of_lt (by omega)
    rw [asI32, hw, if_pos hlen]
  · show parseSearchPayload (exportPayload (Searcher.export_records dirs)) = _
    exact parseSearchPayload_round _
  · exact fun rs' h =>
      List.map_injective_iff.mpr
        (fun x y hxy => searchRecord_codes_inj x y hxy) h

/-- C6 at the concrete one-article workspace `c6Dirs` (whose description
contains characters the JSON writer must escape): the length hypothesis
holds and the emitted data segment parses back to the records. -/
theorem c6_search_bundle_witness :
    (exportPayload (Searcher.export_records c6Dirs)).length < 2147483648
    ∧ parseSearchPayload
        (Searcher.encode_payload_as_wasm
          (exportPayload (Searcher.export_records c6Dirs))).dataSegBytes
      = some ((Searcher.export_records c6Dirs).map SearchRecord.codes) :=
  ⟨by decide, (c6_search_bundle c6Dirs (by decide)).2.2.2.2.1⟩

end Thought
